import Mathlib

/-! # Session values (`session/values.go`)

A shallow embedding of the typed accessors of the session value store
(`GetString`, `PutString`, `PopString`, `GetBool`, `PutBool`, `PopBool`,
`GetInt`, `PutInt`, `PopInt`, `Remove`, `Clear`) together with the part of Go's
`strconv` package that `GetInt` and `PopInt` call (`strconv.Atoi`).

Conventions of the embedding:

* a Go `string` is a sequence of bytes (`GoString`);
* a Go `(T, error)` result is a pair whose second component is `none` for a
  `nil` error;
* every operation is a state transformer: it takes the request and returns its
  Go result together with the request as it is after the call (the session a
  request carries is reached through a pointer, so a mutation is visible to
  the next call on the same request);
* the mutex is not part of the sequential state: an operation runs between its
  `Lock`/`RLock` and the deferred unlock without interleaving.
-/

namespace Scs

/-! ## Go strings -/

/-- A byte. -/
abbrev Byte := Fin 256

/-- A Go `string`: an immutable sequence of bytes. -/
abbrev GoString := List Byte

/-- The Go string literal with the given ASCII text. -/
def ascii (s : String) : GoString :=
  s.toList.map (fun c => Fin.ofNat c.toNat)

/-! ## Errors -/

/-- The two sentinel errors a `*strconv.NumError` wraps (`strconv.ErrSyntax`,
`strconv.ErrRange`). -/
inductive NumErrKind where
  | ErrSyntax
  | ErrRange
  deriving DecidableEq, Repr

/-- The struct `strconv.NumError`: the failing function, the input text and the
reason. -/
structure NumError where
  Func : GoString
  Num : GoString
  Err : NumErrKind
  deriving DecidableEq, Repr

/-- Go `error` values that the operations can return.  `ErrKeyNotFound` and
`ErrTypeAssertionFailed` are the two package variables of `values.go`;
`NumError` is a `*strconv.NumError`.

Modelled from the spec: `ErrAlreadyWritten` is declared outside `values.go`
(the error kind `AlreadyWritten`, raised when the `written` flag is true), and
`resolution` stands for whatever error `sessionFromContext` reports
(`SessionResolutionFailed`), told apart by a tag. -/
inductive Error where
  | ErrKeyNotFound
  | ErrTypeAssertionFailed
  | ErrAlreadyWritten
  | NumError (e : NumError)
  | resolution (tag : Nat)
  deriving DecidableEq, Repr

/-! ## Dynamically typed values and the map -/

/-- A value of Go type `interface{}` as the accessors tell them apart by
dynamic type: `string`, `bool`, `int`, `json.Number` (a named string type), or
a value of any other dynamic type. -/
inductive Value where
  | string (s : GoString)
  | bool (b : Bool)
  | int (i : Int)
  | Number (s : GoString)
  | other (tag : Nat)
  deriving DecidableEq, Repr

/-- A Go `map[string]interface{}`, kept as an association list. -/
abbrev Values := List (GoString × Value)

/-- The map index expression `v, exists := m[key]`. -/
def mapGet : Values → GoString → Option Value
  | [], _ => none
  | (k, v) :: rest, key => if k = key then some v else mapGet rest key

/-- The builtin `delete(m, key)`. -/
def mapDelete (m : Values) (key : GoString) : Values :=
  m.filter (fun e => decide (e.1 ≠ key))

/-- The map assignment `m[key] = v`. -/
def mapSet (m : Values) (key : GoString) (v : Value) : Values :=
  (key, v) :: mapDelete m key

/-- The keys a `for key := range m` loop visits. -/
def mapKeys (m : Values) : List GoString :=
  m.map Prod.fst

/-! ## `strconv.Atoi`

`GetInt` and `PopInt` hand the text of a `json.Number` to `strconv.Atoi`.  The
definitions below follow Go's `strconv/atoi.go`, with `ParseInt` and
`ParseUint` at the arguments `Atoi` passes (`base = 10`, `bitSize = 0`): the
branches for other bases, for the base prefix and for underscores are not
reachable from there.  The width of `int` depends on the platform, so it is a
parameter. -/

/-- The target architecture, which fixes `strconv.IntSize`. -/
inductive Arch where
  | bits32
  | bits64
  deriving DecidableEq, Repr

/-- The constant `strconv.IntSize`: size in bits of an `int`. -/
def Arch.intSize : Arch → Nat
  | .bits32 => 32
  | .bits64 => 64

/-- Conversion of an integer to the signed type of `w` bits (two's complement
wrap-around). -/
def toSigned (w : Nat) (x : Int) : Int :=
  (x + 2 ^ (w - 1)) % 2 ^ w - 2 ^ (w - 1)

/-- The smallest `int`. -/
def Arch.minInt (a : Arch) : Int := -(2 ^ (a.intSize - 1))

/-- The largest `int`. -/
def Arch.maxInt (a : Arch) : Int := 2 ^ (a.intSize - 1) - 1

/-- The constant `fnAtoi`, the name `Atoi` puts into its errors. -/
def fnAtoi : GoString := ascii "Atoi"

/-- The constant `fnParseInt`. -/
def fnParseInt : GoString := ascii "ParseInt"

/-- The constant `fnParseUint`. -/
def fnParseUint : GoString := ascii "ParseUint"

/-- The function `syntaxError(fn, str)` of `strconv`. -/
def syntaxError (fn str : GoString) : NumError :=
  { Func := fn, Num := str, Err := .ErrSyntax }

/-- The function `rangeError(fn, str)` of `strconv`. -/
def rangeError (fn str : GoString) : NumError :=
  { Func := fn, Num := str, Err := .ErrRange }

/-- The constant `maxUint64`. -/
def maxUint64 : Nat := 2 ^ 64 - 1

/-- The function `lower(c)`: `c | ('x' - 'X')`. -/
def lower (c : Byte) : Nat := c.val ||| 32

/-- The `switch` that turns a byte into a digit value in the loop of
`ParseUint`; `none` is its `default` case. -/
def digitVal (c : Byte) : Option Nat :=
  if 48 ≤ c.val ∧ c.val ≤ 57 then some (c.val - 48)
  else if 97 ≤ lower c ∧ lower c ≤ 122 then some (lower c - 97 + 10)
  else none

/-- The loop of `ParseUint` over the bytes of `s`, with the accumulator `n` of
type `uint64`. -/
def parseUintLoop (s0 : GoString) (maxVal : Nat) : List Byte → Nat → Nat × Option NumError
  | [], n => (n, none)
  | c :: cs, n =>
    match digitVal c with
    | none => (0, some (syntaxError fnParseUint s0))
    | some d =>
      if d ≥ 10 then (0, some (syntaxError fnParseUint s0))
      else if n ≥ maxUint64 / 10 + 1 then (maxVal, some (rangeError fnParseUint s0))
      else
        let n10 := (n * 10) % 2 ^ 64
        let n1 := (n10 + d) % 2 ^ 64
        if n1 < n10 ∨ n1 > maxVal then (maxVal, some (rangeError fnParseUint s0))
        else parseUintLoop s0 maxVal cs n1

/-- The call `ParseUint(s, 10, 0)`. -/
def ParseUint (a : Arch) (s : GoString) : Nat × Option NumError :=
  if s = [] then (0, some (syntaxError fnParseUint s))
  else
    let bitSize := a.intSize
    let maxVal := (2 ^ bitSize % 2 ^ 64 + 2 ^ 64 - 1) % 2 ^ 64
    parseUintLoop s maxVal s 0

/-- The call `ParseInt(s, 10, 0)`. -/
def ParseInt (a : Arch) (s : GoString) : Int × Option NumError :=
  if s = [] then (0, some (syntaxError fnParseInt s))
  else
    let s0 := s
    let neg := decide (s.head? = some 45)
    let s := if s.head? = some 43 ∨ s.head? = some 45 then s.tail else s
    let (un, err) := ParseUint a s
    match err with
    | some { Func := _, Num := _, Err := .ErrSyntax } =>
      (0, some { Func := fnParseInt, Num := s0, Err := .ErrSyntax })
    | _ =>
      let bitSize := a.intSize
      let cutoff := 2 ^ (bitSize - 1) % 2 ^ 64
      if neg = false ∧ un ≥ cutoff then
        (toSigned 64 ((cutoff + 2 ^ 64 - 1) % 2 ^ 64 : Nat), some (rangeError fnParseInt s0))
      else if neg = true ∧ un > cutoff then
        (toSigned 64 (-(toSigned 64 cutoff)), some (rangeError fnParseInt s0))
      else
        let n := toSigned 64 un
        let n := if neg then toSigned 64 (-n) else n
        (n, none)

/-- The loop of the fast path of `Atoi`, with the accumulator `n` of type
`int`; `none` stands for the exit through `syntaxError`. -/
def atoiLoop (w : Nat) : List Byte → Int → Option Int
  | [], n => some n
  | ch :: rest, n =>
    let d := (ch.val + 256 - 48) % 256
    if d > 9 then none
    else atoiLoop w rest (toSigned w (n * 10 + d))

/-- The function `strconv.Atoi`. -/
def Atoi (a : Arch) (s : GoString) : Int × Option Error :=
  let sLen := s.length
  if (a.intSize = 32 ∧ (0 < sLen ∧ sLen < 10)) ∨ (a.intSize = 64 ∧ (0 < sLen ∧ sLen < 19)) then
    let s0 := s
    let signed := decide (s.head? = some 45 ∨ s.head? = some 43)
    let s := if signed then s.tail else s
    if signed = true ∧ s.length < 1 then (0, some (.NumError (syntaxError fnAtoi s0)))
    else
      match atoiLoop a.intSize s 0 with
      | none => (0, some (.NumError (syntaxError fnAtoi s0)))
      | some n =>
        let n := if s0.head? = some 45 then toSigned a.intSize (-n) else n
        (n, none)
  else
    let (i64, err) := ParseInt a s
    (toSigned a.intSize i64, err.map (fun nerr => .NumError { nerr with Func := fnAtoi }))

/-- The method `json.Number.String`: the text of the number. -/
def Number.String (n : GoString) : GoString := n

/-! ## The session and its resolution -/

/-- Modelled from the spec: the session struct is declared outside
`values.go`; these are the three fields the accessors touch (`values`,
`written`, `modified`), the lock `mu` being left out of the sequential
state. -/
structure Session where
  values : Values
  written : Bool
  modified : Bool
  deriving DecidableEq, Repr

/-- Modelled from the spec: a request, seen through what `sessionFromContext`
makes of it: either it carries a session, or resolution fails with an error. -/
inductive Request where
  | bound (s : Session)
  | unbound (err : Error)
  deriving DecidableEq, Repr

/-- Modelled from the spec: `sessionFromContext(request) -> (SessionHandle,
error)`, defined outside `values.go`. -/
def sessionFromContext : Request → Except Error Session
  | .bound s => .ok s
  | .unbound err => .error err

/-! ## The accessors of `values.go` -/

/-- `GetString(r, key)`. -/
def GetString (r : Request) (key : GoString) : (GoString × Option Error) × Request :=
  match sessionFromContext r with
  | .error err => (([], some err), r)
  | .ok s =>
    match mapGet s.values key with
    | none => (([], some .ErrKeyNotFound), r)
    | some v =>
      match v with
      | .string str => ((str, none), r)
      | _ => (([], some .ErrTypeAssertionFailed), r)

/-- `PutString(r, key, val)`. -/
def PutString (r : Request) (key : GoString) (val : GoString) : Option Error × Request :=
  match sessionFromContext r with
  | .error err => (some err, r)
  | .ok s =>
    if s.written = true then (some .ErrAlreadyWritten, r)
    else
      let s := { s with values := mapSet s.values key (.string val) }
      let s := { s with modified := true }
      (none, .bound s)

/-- `PopString(r, key)`. -/
def PopString (r : Request) (key : GoString) : (GoString × Option Error) × Request :=
  match sessionFromContext r with
  | .error err => (([], some err), r)
  | .ok s =>
    if s.written = true then (([], some .ErrAlreadyWritten), r)
    else
      match mapGet s.values key with
      | none => (([], some .ErrKeyNotFound), r)
      | some v =>
        match v with
        | .string str =>
          let s := { s with values := mapDelete s.values key }
          let s := { s with modified := true }
          ((str, none), .bound s)
        | _ => (([], some .ErrTypeAssertionFailed), r)

/-- `GetBool(r, key)`. -/
def GetBool (r : Request) (key : GoString) : (Bool × Option Error) × Request :=
  match sessionFromContext r with
  | .error err => ((false, some err), r)
  | .ok s =>
    match mapGet s.values key with
    | none => ((false, some .ErrKeyNotFound), r)
    | some v =>
      match v with
      | .bool b => ((b, none), r)
      | _ => ((false, some .ErrTypeAssertionFailed), r)

/-- `PutBool(r, key, val)`. -/
def PutBool (r : Request) (key : GoString) (val : Bool) : Option Error × Request :=
  match sessionFromContext r with
  | .error err => (some err, r)
  | .ok s =>
    if s.written = true then (some .ErrAlreadyWritten, r)
    else
      let s := { s with values := mapSet s.values key (.bool val) }
      let s := { s with modified := true }
      (none, .bound s)

/-- `PopBool(r, key)`. -/
def PopBool (r : Request) (key : GoString) : (Bool × Option Error) × Request :=
  match sessionFromContext r with
  | .error err => ((false, some err), r)
  | .ok s =>
    if s.written = true then ((false, some .ErrAlreadyWritten), r)
    else
      match mapGet s.values key with
      | none => ((false, some .ErrKeyNotFound), r)
      | some v =>
        match v with
        | .bool b =>
          let s := { s with values := mapDelete s.values key }
          let s := { s with modified := true }
          ((b, none), .bound s)
        | _ => ((false, some .ErrTypeAssertionFailed), r)

/-- `GetInt(r, key)`. -/
def GetInt (a : Arch) (r : Request) (key : GoString) : (Int × Option Error) × Request :=
  match sessionFromContext r with
  | .error err => ((0, some err), r)
  | .ok s =>
    match mapGet s.values key with
    | none => ((0, some .ErrKeyNotFound), r)
    | some v =>
      match v with
      | .int v => ((v, none), r)
      | .Number v => (Atoi a (Number.String v), r)
      | _ => ((0, some .ErrTypeAssertionFailed), r)

/-- `PutInt(r, key, val)`. -/
def PutInt (r : Request) (key : GoString) (val : Int) : Option Error × Request :=
  match sessionFromContext r with
  | .error err => (some err, r)
  | .ok s =>
    if s.written = true then (some .ErrAlreadyWritten, r)
    else
      let s := { s with values := mapSet s.values key (.int val) }
      let s := { s with modified := true }
      (none, .bound s)

/-- The tail of `PopInt` once the integer `i` is extracted: delete the key, mark
the session modified, return `i`. -/
def popIntCommit (s : Session) (key : GoString) (i : Int) : (Int × Option Error) × Request :=
  let s := { s with values := mapDelete s.values key }
  let s := { s with modified := true }
  ((i, none), .bound s)

/-- `PopInt(r, key)`. -/
def PopInt (a : Arch) (r : Request) (key : GoString) : (Int × Option Error) × Request :=
  match sessionFromContext r with
  | .error err => ((0, some err), r)
  | .ok s =>
    if s.written = true then ((0, some .ErrAlreadyWritten), r)
    else
      match mapGet s.values key with
      | none => ((0, some .ErrKeyNotFound), r)
      | some v =>
        match v with
        | .int v => popIntCommit s key v
        | .Number v =>
          match Atoi a (Number.String v) with
          | (_, some err) => ((0, some err), r)
          | (i, none) => popIntCommit s key i
        | _ => ((0, some .ErrTypeAssertionFailed), r)

/-- `Remove(r, key)`. -/
def Remove (r : Request) (key : GoString) : Option Error × Request :=
  match sessionFromContext r with
  | .error err => (some err, r)
  | .ok s =>
    if s.written = true then (some .ErrAlreadyWritten, r)
    else
      let s := { s with values := mapDelete s.values key }
      let s := { s with modified := true }
      (none, .bound s)

/-- `Clear(r)`: the loop deletes every key the range visits. -/
def Clear (r : Request) : Option Error × Request :=
  match sessionFromContext r with
  | .error err => (some err, r)
  | .ok s =>
    if s.written = true then (some .ErrAlreadyWritten, r)
    else
      let s := { s with values := (mapKeys s.values).foldl mapDelete s.values }
      let s := { s with modified := true }
      (none, .bound s)

/-! ## Decimal numerals

The notions the statements about `json.Number` refer to: what it means for a
text to be a decimal integer, which integer it denotes, and the decimal
rendering of an integer.  These follow the usual reading of a decimal numeral
and are independent of `Atoi`. -/

/-- An ASCII decimal digit, `'0'` to `'9'`. -/
def isDigit (c : Byte) : Bool :=
  decide (48 ≤ c.val ∧ c.val ≤ 57)

/-- The number denoted by a sequence of decimal digits read after the prefix
value `acc`. -/
def digitsVal (acc : Nat) (cs : List Byte) : Nat :=
  cs.foldl (fun n c => n * 10 + (c.val - 48)) acc

/-- The natural number denoted by a non-empty sequence of decimal digits. -/
def unsignedValue (cs : List Byte) : Option Nat :=
  if cs ≠ [] ∧ cs.all isDigit = true then some (digitsVal 0 cs) else none

/-- The integer denoted by a decimal integer text: an optional sign `'-'` or
`'+'` followed by one or more decimal digits; `none` when the text is not of
that form. -/
def decimalValue (t : GoString) : Option Int :=
  match t with
  | [] => none
  | c :: rest =>
    if c.val = 45 then (unsignedValue rest).map (fun (n : Nat) => -(n : Int))
    else if c.val = 43 then (unsignedValue rest).map (fun (n : Nat) => (n : Int))
    else (unsignedValue t).map (fun (n : Nat) => (n : Int))

/-- The byte of the decimal digit `d`. -/
def digitByte (d : Nat) : Byte :=
  Fin.ofNat (48 + d % 10)

/-- Decimal digits of `n`, most significant first, with at most `fuel`
digits. -/
def decimalNatAux : Nat → Nat → List Byte
  | 0, _ => []
  | fuel + 1, n =>
    if n < 10 then [digitByte n]
    else decimalNatAux fuel (n / 10) ++ [digitByte (n % 10)]

/-- The decimal rendering of a natural number. -/
def decimalNat (n : Nat) : List Byte :=
  decimalNatAux (n + 1) n

/-- The decimal rendering of an integer (what `strconv.Itoa` prints): a `'-'`
for a negative number, then the digits without leading zeros. -/
def decimal (n : Int) : GoString :=
  if n < 0 then (45 : Byte) :: decimalNat n.natAbs else decimalNat n.natAbs

/-! ## Sample sessions -/

/-- An open session holding a string under `"name"` and the `json.Number` with
text `"7"` under `"count"`. -/
def seeded : Session :=
  { values := [(ascii "name", .string (ascii "alice")), (ascii "count", .Number (ascii "7"))],
    written := false, modified := false }

/-- A frozen session (`written = true`) holding a string under `"name"` and
the native int `5` under `"age"`. -/
def frozen : Session :=
  { values := [(ascii "name", .string (ascii "alice")), (ascii "age", .int 5)],
    written := true, modified := true }

/-- An open session holding the single value `v` under `"n"`. -/
def holding (v : Value) : Session :=
  { values := [(ascii "n", v)], written := false, modified := false }

/-- The empty, untouched session. -/
def emptySession : Session :=
  { values := [], written := false, modified := false }

/-! ## Sequences of calls, the lock, the flush -/

/-- One call of an accessor of `values.go`, with its arguments other than the
request. -/
inductive Op where
  | getString (key : GoString)
  | putString (key : GoString) (val : GoString)
  | popString (key : GoString)
  | getBool (key : GoString)
  | putBool (key : GoString) (val : Bool)
  | popBool (key : GoString)
  | getInt (key : GoString)
  | putInt (key : GoString) (val : Int)
  | popInt (key : GoString)
  | remove (key : GoString)
  | clear
  deriving DecidableEq, Repr

/-- The request as it is after the call `op`. -/
def Op.after (a : Arch) : Op → Request → Request
  | .getString key, r => (GetString r key).2
  | .putString key val, r => (PutString r key val).2
  | .popString key, r => (PopString r key).2
  | .getBool key, r => (GetBool r key).2
  | .putBool key val, r => (PutBool r key val).2
  | .popBool key, r => (PopBool r key).2
  | .getInt key, r => (GetInt a r key).2
  | .putInt key val, r => (PutInt r key val).2
  | .popInt key, r => (PopInt a r key).2
  | .remove key, r => (Remove r key).2
  | .clear, r => (Clear r).2

/-- The request after a sequence of calls, made one after the other. -/
def run (a : Arch) (ops : List Op) (r : Request) : Request :=
  ops.foldl (fun r op => op.after a r) r

/-- The two modes of a `sync.RWMutex`: `RLock` (shared) and `Lock`
(exclusive). -/
inductive LockMode where
  | shared
  | exclusive
  deriving DecidableEq, Repr

/-- The mode in which each accessor takes `s.mu` once the session is resolved;
it holds the lock in that mode until the deferred unlock at its return.
`RLock` at lines 21 (`GetString`), 87 (`GetBool`), 153 (`GetInt`) and 194
(`PopInt`); `Lock` at lines 43 (`PutString`), 60 (`PopString`), 109
(`PutBool`), 126 (`PopBool`), 177 (`PutInt`), 229 (`Remove`) and 246
(`Clear`). -/
def lockMode : Op → LockMode
  | .getString _ => .shared
  | .putString _ _ => .exclusive
  | .popString _ => .exclusive
  | .getBool _ => .shared
  | .putBool _ _ => .exclusive
  | .popBool _ => .exclusive
  | .getInt _ => .shared
  | .putInt _ _ => .exclusive
  | .popInt _ => .shared
  | .remove _ => .exclusive
  | .clear => .exclusive

/-- Modelled from the spec: the flush step of the session layer, which lies
outside `values.go` and sets the `written` flag ("set by an external flush
step"); nothing else is changed by it here. -/
def markWritten (s : Session) : Session :=
  { s with written := true }

/-! ## Facts about the map operations -/

theorem mapDelete_cons (k : GoString) (v : Value) (rest : Values) (key : GoString) :
    mapDelete ((k, v) :: rest) key =
      if k = key then mapDelete rest key else (k, v) :: mapDelete rest key := by
  by_cases hk : k = key <;> simp [mapDelete, hk]

theorem mapGet_cons (k : GoString) (v : Value) (rest : Values) (key : GoString) :
    mapGet ((k, v) :: rest) key = if k = key then some v else mapGet rest key := rfl

theorem mapGet_mapDelete_self (m : Values) (key : GoString) :
    mapGet (mapDelete m key) key = none := by
  induction m with
  | nil => rfl
  | cons e rest ih =>
    obtain ⟨k, v⟩ := e
    rw [mapDelete_cons]
    by_cases hk : k = key
    · rw [if_pos hk]; exact ih
    · rw [if_neg hk, mapGet_cons, if_neg hk]; exact ih

theorem mapGet_mapDelete_of_ne (m : Values) (key other : GoString) (hne : other ≠ key) :
    mapGet (mapDelete m key) other = mapGet m other := by
  induction m with
  | nil => rfl
  | cons e rest ih =>
    obtain ⟨k, v⟩ := e
    rw [mapDelete_cons, mapGet_cons]
    by_cases hk : k = key
    · have hko : k ≠ other := fun h => hne (h ▸ hk)
      rw [if_pos hk, if_neg hko]; exact ih
    · rw [if_neg hk, mapGet_cons]
      by_cases hko : k = other
      · rw [if_pos hko, if_pos hko]
      · rw [if_neg hko, if_neg hko]; exact ih

theorem mapGet_mapSet_self (m : Values) (key : GoString) (v : Value) :
    mapGet (mapSet m key v) key = some v := by
  simp [mapSet, mapGet]

theorem mapGet_mapSet_of_ne (m : Values) (key other : GoString) (v : Value)
    (hne : other ≠ key) : mapGet (mapSet m key v) other = mapGet m other := by
  have hne2 : key ≠ other := fun h => hne h.symm
  simp [mapSet, mapGet, hne2, mapGet_mapDelete_of_ne m key other hne]

theorem mapGet_nil (key : GoString) : mapGet [] key = none := rfl

theorem mem_mapKeys_mapDelete (m : Values) (key k : GoString)
    (h : k ∈ mapKeys (mapDelete m key)) : k ∈ mapKeys m ∧ k ≠ key := by
  simp only [mapKeys, mapDelete, List.mem_map, List.mem_filter] at h ⊢
  obtain ⟨e, ⟨he, hd⟩, rfl⟩ := h
  exact ⟨⟨e, he, rfl⟩, by simpa using hd⟩

/-- Deleting every key of a list that covers the keys of the map empties it. -/
theorem foldl_mapDelete_eq_nil (ks : List GoString) :
    ∀ m : Values, (∀ k ∈ mapKeys m, k ∈ ks) → ks.foldl mapDelete m = [] := by
  induction ks with
  | nil =>
    intro m hm
    cases m with
    | nil => rfl
    | cons e rest => exact absurd (hm e.1 (by simp [mapKeys])) (by simp)
  | cons k ks ih =>
    intro m hm
    rw [List.foldl_cons]
    apply ih
    intro k1 hk1
    obtain ⟨hmem, hne⟩ := mem_mapKeys_mapDelete m k k1 hk1
    have := hm k1 hmem
    simp only [List.mem_cons] at this
    rcases this with h | h
    · exact absurd h hne
    · exact h

theorem clear_loop_eq_nil (m : Values) : (mapKeys m).foldl mapDelete m = [] :=
  foldl_mapDelete_eq_nil (mapKeys m) m (fun _ h => h)

/-! ## Facts about `strconv.Atoi` -/

theorem toSigned_of_range (w : Nat) (x : Int) (hw : 1 ≤ w)
    (hlo : -(2 ^ (w - 1)) ≤ x) (hhi : x < 2 ^ (w - 1)) : toSigned w x = x := by
  have hpow : (2 : Int) ^ w = 2 * 2 ^ (w - 1) := by
    obtain ⟨v, rfl⟩ : ∃ v, w = v + 1 := ⟨w - 1, by omega⟩
    simp [pow_succ, mul_comm]
  unfold toSigned
  rw [hpow, Int.emod_eq_of_lt (by omega) (by omega)]
  omega

theorem isDigit_iff (c : Byte) : isDigit c = true ↔ 48 ≤ c.val ∧ c.val ≤ 57 := by
  simp [isDigit]

theorem isDigit_false_iff (c : Byte) : isDigit c = false ↔ ¬ (48 ≤ c.val ∧ c.val ≤ 57) := by
  simp [isDigit]

theorem digitVal_of_isDigit (c : Byte) (h : isDigit c = true) :
    digitVal c = some (c.val - 48) := by
  rw [isDigit_iff] at h
  simp [digitVal, h]

theorem digitVal_of_not_isDigit (c : Byte) (h : isDigit c = false) :
    digitVal c = none ∨ ∃ d, 10 ≤ d ∧ digitVal c = some d := by
  rw [isDigit_false_iff] at h
  unfold digitVal
  rw [if_neg h]
  by_cases hl : 97 ≤ lower c ∧ lower c ≤ 122
  · right
    exact ⟨lower c - 97 + 10, by omega, by rw [if_pos hl]⟩
  · left
    rw [if_neg hl]

theorem digitsVal_nil (acc : Nat) : digitsVal acc [] = acc := rfl

theorem digitsVal_cons (acc : Nat) (c : Byte) (cs : List Byte) :
    digitsVal acc (c :: cs) = digitsVal (acc * 10 + (c.val - 48)) cs := rfl

theorem digitsVal_append_singleton (acc : Nat) (cs : List Byte) (c : Byte) :
    digitsVal acc (cs ++ [c]) = digitsVal acc cs * 10 + (c.val - 48) := by
  simp [digitsVal, List.foldl_append]

theorem le_digitsVal (cs : List Byte) : ∀ acc : Nat, acc ≤ digitsVal acc cs := by
  induction cs with
  | nil => intro acc; exact le_refl _
  | cons c cs ih =>
    intro acc
    rw [digitsVal_cons]
    have := ih (acc * 10 + (c.val - 48))
    omega

theorem digitsVal_mono (cs : List Byte) :
    ∀ m n : Nat, m ≤ n → digitsVal m cs ≤ digitsVal n cs := by
  induction cs with
  | nil => intro m n h; exact h
  | cons c cs ih =>
    intro m n h
    rw [digitsVal_cons, digitsVal_cons]
    exact ih _ _ (by omega)

/-- A run of `k` digits read after `acc` stays below `(acc + 1) * 10 ^ k`. -/
theorem digitsVal_lt (cs : List Byte) :
    ∀ acc : Nat, cs.all isDigit = true → digitsVal acc cs < (acc + 1) * 10 ^ cs.length := by
  induction cs with
  | nil => intro acc _; simp [digitsVal]
  | cons c cs ih =>
    intro acc h
    rw [List.all_cons, Bool.and_eq_true] at h
    have hc := (isDigit_iff c).1 h.1
    rw [digitsVal_cons, List.length_cons, pow_succ]
    have h1 := ih (acc * 10 + (c.val - 48)) h.2
    have h2 : (acc * 10 + (c.val - 48) + 1) * 10 ^ cs.length
        ≤ ((acc + 1) * 10) * 10 ^ cs.length :=
      Nat.mul_le_mul_right _ (by omega)
    calc digitsVal (acc * 10 + (c.val - 48)) cs
        < (acc * 10 + (c.val - 48) + 1) * 10 ^ cs.length := h1
      _ ≤ ((acc + 1) * 10) * 10 ^ cs.length := h2
      _ = (acc + 1) * (10 ^ cs.length * 10) := by ring

theorem atoiLoop_of_digits (w : Nat) (hw : 1 ≤ w) (cs : List Byte) :
    ∀ n : Nat, cs.all isDigit = true → (digitsVal n cs : Int) < 2 ^ (w - 1) →
      atoiLoop w cs n = some (digitsVal n cs : Int) := by
  induction cs with
  | nil => intro n _ _; rfl
  | cons c cs ih =>
    intro n h hlt
    rw [List.all_cons, Bool.and_eq_true] at h
    have hc := (isDigit_iff c).1 h.1
    have hd : (c.val + 256 - 48) % 256 = c.val - 48 := by omega
    rw [digitsVal_cons] at hlt ⊢
    have hle := le_digitsVal cs (n * 10 + (c.val - 48))
    have hstep : toSigned w ((n : Int) * 10 + ((c.val + 256 - 48) % 256 : Nat))
        = ((n * 10 + (c.val - 48) : Nat) : Int) := by
      rw [hd]
      have hpos : (0 : Int) ≤ 2 ^ (w - 1) := by positivity
      rw [toSigned_of_range w _ hw (by omega) (by omega)]
      push_cast
      rfl
    unfold atoiLoop
    simp only [hd]
    rw [if_neg (by omega)]
    rw [hd] at hstep
    rw [hstep]
    exact ih _ h.2 hlt

theorem atoiLoop_of_not_digits (w : Nat) (cs : List Byte) :
    ∀ n : Int, cs.all isDigit = false → atoiLoop w cs n = none := by
  induction cs with
  | nil => intro n h; simp at h
  | cons c cs ih =>
    intro n h
    unfold atoiLoop
    by_cases hc : isDigit c = true
    · have hrest : cs.all isDigit = false := by
        rw [List.all_cons, hc, Bool.true_and] at h
        exact h
      have hc2 := (isDigit_iff c).1 hc
      simp only
      rw [if_neg (by omega)]
      exact ih _ hrest
    · have hc2 := (isDigit_false_iff c).1 (by simpa using hc)
      have hlt := c.isLt
      simp only
      rw [if_pos (by omega)]

theorem parseUintLoop_of_digits (s0 : GoString) (maxVal : Nat) (hmax : maxVal < 2 ^ 64)
    (cs : List Byte) :
    ∀ n : Nat, cs.all isDigit = true → digitsVal n cs ≤ maxVal →
      parseUintLoop s0 maxVal cs n = (digitsVal n cs, none) := by
  induction cs with
  | nil => intro n _ _; rfl
  | cons c cs ih =>
    intro n h hle
    rw [List.all_cons, Bool.and_eq_true] at h
    have hc := (isDigit_iff c).1 h.1
    rw [digitsVal_cons] at hle ⊢
    have hge := le_digitsVal cs (n * 10 + (c.val - 48))
    have h10 : (n * 10) % 2 ^ 64 = n * 10 := Nat.mod_eq_of_lt (by omega)
    have h1 : (n * 10 + (c.val - 48)) % 2 ^ 64 = n * 10 + (c.val - 48) :=
      Nat.mod_eq_of_lt (by omega)
    unfold parseUintLoop
    rw [digitVal_of_isDigit c h.1]
    simp only [h10, h1]
    rw [if_neg (by omega), if_neg (by unfold maxUint64; omega), if_neg (by omega)]
    exact ih _ h.2 hle

theorem parseUintLoop_of_overflow (s0 : GoString) (maxVal : Nat) (cs : List Byte) :
    ∀ n : Nat, cs.all isDigit = true → n ≤ maxVal → maxVal < digitsVal n cs →
      parseUintLoop s0 maxVal cs n = (maxVal, some (rangeError fnParseUint s0)) := by
  induction cs with
  | nil => intro n _ hn hlt; rw [digitsVal_nil] at hlt; omega
  | cons c cs ih =>
    intro n h hn hlt
    rw [List.all_cons, Bool.and_eq_true] at h
    have hc := (isDigit_iff c).1 h.1
    rw [digitsVal_cons] at hlt
    unfold parseUintLoop
    rw [digitVal_of_isDigit c h.1]
    simp only
    rw [if_neg (by omega)]
    by_cases hcut : n ≥ maxUint64 / 10 + 1
    · rw [if_pos hcut]
    · rw [if_neg hcut]
      have h10 : (n * 10) % 2 ^ 64 = n * 10 :=
        Nat.mod_eq_of_lt (by unfold maxUint64 at hcut; omega)
      rw [h10]
      by_cases hov : (n * 10 + (c.val - 48)) % 2 ^ 64 < n * 10 ∨
          (n * 10 + (c.val - 48)) % 2 ^ 64 > maxVal
      · rw [if_pos hov]
      · rw [if_neg hov]
        have hnowrap : (n * 10 + (c.val - 48)) % 2 ^ 64 = n * 10 + (c.val - 48) := by
          by_contra hne
          have hbig : 2 ^ 64 ≤ n * 10 + (c.val - 48) := by
            by_contra hsmall
            exact hne (Nat.mod_eq_of_lt (by omega))
          apply hov
          left
          omega
        rw [hnowrap] at hov ⊢
        exact ih _ h.2 (by omega) hlt

/-- Every failure of the loop of `ParseUint` is a syntax error with result `0`
or a range error with result `maxVal`. -/
theorem parseUintLoop_error_shape (s0 : GoString) (maxVal : Nat) (cs : List Byte) :
    ∀ (n v : Nat) (e : NumError), parseUintLoop s0 maxVal cs n = (v, some e) →
      (v = 0 ∧ e = syntaxError fnParseUint s0) ∨
      (v = maxVal ∧ e = rangeError fnParseUint s0) := by
  induction cs with
  | nil => intro n v e h; simp [parseUintLoop] at h
  | cons c cs ih =>
    intro n v e h
    unfold parseUintLoop at h
    split at h
    · left
      simp only [Prod.mk.injEq, Option.some.injEq] at h
      exact ⟨h.1.symm, h.2.symm⟩
    · simp only at h
      split_ifs at h
      · left
        simp only [Prod.mk.injEq, Option.some.injEq] at h
        exact ⟨h.1.symm, h.2.symm⟩
      · right
        simp only [Prod.mk.injEq, Option.some.injEq] at h
        exact ⟨h.1.symm, h.2.symm⟩
      · right
        simp only [Prod.mk.injEq, Option.some.injEq] at h
        exact ⟨h.1.symm, h.2.symm⟩
      · exact ih _ _ _ h

theorem parseUintLoop_of_not_digits (s0 : GoString) (maxVal : Nat) (cs : List Byte) :
    ∀ n : Nat, cs.all isDigit = false → (parseUintLoop s0 maxVal cs n).2 ≠ none := by
  induction cs with
  | nil => intro n h; simp at h
  | cons c cs ih =>
    intro n h
    unfold parseUintLoop
    by_cases hc : isDigit c = true
    · have hrest : cs.all isDigit = false := by
        rw [List.all_cons, hc, Bool.true_and] at h
        exact h
      have hc2 := (isDigit_iff c).1 hc
      rw [digitVal_of_isDigit c hc]
      simp only
      split_ifs
      · simp
      · simp
      · simp
      · exact ih _ hrest
    · rcases digitVal_of_not_isDigit c (by simpa using hc) with hnone | ⟨d, hd, hsome⟩
      · rw [hnone]; simp
      · rw [hsome]
        simp only
        rw [if_pos hd]
        simp

theorem maxVal_eq (a : Arch) :
    (2 ^ a.intSize % 2 ^ 64 + 2 ^ 64 - 1) % 2 ^ 64 = 2 ^ a.intSize - 1 := by
  cases a <;> simp [Arch.intSize]

theorem unsignedValue_eq_some (cs : List Byte) (m : Nat) (h : unsignedValue cs = some m) :
    cs ≠ [] ∧ cs.all isDigit = true ∧ m = digitsVal 0 cs := by
  unfold unsignedValue at h
  split_ifs at h with hc
  simp only [Option.some.injEq] at h
  exact ⟨hc.1, hc.2, h.symm⟩

theorem unsignedValue_eq_none (cs : List Byte) (h : unsignedValue cs = none) :
    cs = [] ∨ cs.all isDigit = false := by
  unfold unsignedValue at h
  split_ifs at h with hc
  by_cases hnil : cs = []
  · exact Or.inl hnil
  · right
    by_contra hall
    exact hc ⟨hnil, by simpa using hall⟩

theorem ParseUint_of_digits (a : Arch) (cs : List Byte) (hne : cs ≠ [])
    (hall : cs.all isDigit = true) (hle : digitsVal 0 cs ≤ 2 ^ a.intSize - 1) :
    ParseUint a cs = (digitsVal 0 cs, none) := by
  unfold ParseUint
  rw [if_neg hne]
  simp only [maxVal_eq]
  exact parseUintLoop_of_digits cs _ (by cases a <;> simp [Arch.intSize]) cs 0 hall hle

theorem ParseUint_of_overflow (a : Arch) (cs : List Byte) (hne : cs ≠ [])
    (hall : cs.all isDigit = true) (hlt : 2 ^ a.intSize - 1 < digitsVal 0 cs) :
    ParseUint a cs = (2 ^ a.intSize - 1, some (rangeError fnParseUint cs)) := by
  unfold ParseUint
  rw [if_neg hne]
  simp only [maxVal_eq]
  exact parseUintLoop_of_overflow cs _ cs 0 hall (Nat.zero_le _) hlt

/-- On a text that is not a non-empty run of digits `ParseUint` fails, with a
syntax error and result `0` or with a range error and the largest value. -/
theorem ParseUint_of_not_digits (a : Arch) (cs : List Byte) (h : unsignedValue cs = none) :
    ParseUint a cs = (0, some (syntaxError fnParseUint cs)) ∨
    ParseUint a cs = (2 ^ a.intSize - 1, some (rangeError fnParseUint cs)) := by
  unfold ParseUint
  rcases unsignedValue_eq_none cs h with hnil | hbad
  · left
    rw [if_pos hnil]
  · have hne : cs ≠ [] := by
      rintro rfl
      simp at hbad
    rw [if_neg hne]
    simp only [maxVal_eq]
    have hfail := parseUintLoop_of_not_digits cs (2 ^ a.intSize - 1) cs 0 hbad
    cases hres : parseUintLoop cs (2 ^ a.intSize - 1) cs 0 with
    | mk v oe =>
      cases oe with
      | none => rw [hres] at hfail; exact absurd rfl hfail
      | some e =>
        rcases parseUintLoop_error_shape cs _ cs 0 v e hres with ⟨hv, he⟩ | ⟨hv, he⟩
        · left; rw [hv, he]
        · right; rw [hv, he]

/-- The sign of a non-empty text, the text after the sign, and the value of the
whole in terms of the value of the rest. -/
theorem sign_cases (t : GoString) (ht : t ≠ []) :
    ∃ (neg sgn : Bool) (body : List Byte),
      decide (t.head? = some 45) = neg ∧
      decide (t.head? = some 45 ∨ t.head? = some 43) = sgn ∧
      (if t.head? = some 43 ∨ t.head? = some 45 then t.tail else t) = body ∧
      (if sgn = true then t.tail else t) = body ∧
      (sgn = false → body ≠ []) ∧
      (neg = true → sgn = true) ∧
      body.length + (if sgn = true then 1 else 0) = t.length ∧
      decimalValue t =
        (unsignedValue body).map (fun (n : Nat) => if neg = true then -(n : Int) else (n : Int)) := by
  cases t with
  | nil => exact absurd rfl ht
  | cons c rest =>
    have h45 : (c = 45) ↔ c.val = 45 := by
      constructor
      · rintro rfl; rfl
      · intro h; exact Fin.ext h
    have h43 : (c = 43) ↔ c.val = 43 := by
      constructor
      · rintro rfl; rfl
      · intro h; exact Fin.ext h
    have e45 : ((45 : Byte) : Nat) = 45 := rfl
    have e43 : ((43 : Byte) : Nat) = 43 := rfl
    by_cases hm : c = 45
    · refine ⟨true, true, rest, ?_⟩
      subst hm
      simp [decimalValue, e45]
    · by_cases hp : c = 43
      · refine ⟨false, true, rest, ?_⟩
        subst hp
        simp [decimalValue, e43]
      · refine ⟨false, false, c :: rest, ?_⟩
        have hv1 : ¬ c.val = 45 := fun h => hm (h45.2 h)
        have hv2 : ¬ c.val = 43 := fun h => hp (h43.2 h)
        simp [hm, hp, decimalValue, hv1, hv2]

theorem toSigned_64_of_range (x : Int) (hlo : -9223372036854775808 ≤ x)
    (hhi : x < 9223372036854775808) : toSigned 64 x = x :=
  toSigned_of_range 64 x (by decide) (by norm_num; exact hlo) (by norm_num; exact hhi)

theorem toSigned_32_of_range (x : Int) (hlo : -2147483648 ≤ x)
    (hhi : x < 2147483648) : toSigned 32 x = x :=
  toSigned_of_range 32 x (by decide) (by norm_num; exact hlo) (by norm_num; exact hhi)

theorem toSigned_64_min : toSigned 64 9223372036854775808 = -9223372036854775808 := by
  decide

/-- `ParseInt` on a decimal integer text whose value fits `int` returns that
value. -/
theorem ParseInt_of_decimal (a : Arch) (t : GoString) (n : Int)
    (h : decimalValue t = some n) (hlo : a.minInt ≤ n) (hhi : n ≤ a.maxInt) :
    ParseInt a t = (n, none) := by
  have ht : t ≠ [] := by
    rintro rfl
    simp [decimalValue] at h
  obtain ⟨neg, sgn, body, hneg, -, hbody, -, -, -, -, hval⟩ := sign_cases t ht
  rw [hval, Option.map_eq_some'] at h
  obtain ⟨m, hm, hnm⟩ := h
  obtain ⟨hbne, hall, hmv⟩ := unsignedValue_eq_some body m hm
  have hrange : m ≤ 2 ^ (a.intSize - 1) := by
    cases a <;> cases neg <;>
      simp only [Arch.minInt, Arch.maxInt, Arch.intSize] at hlo hhi ⊢ <;>
      simp at hnm <;> omega
  have hPU : ParseUint a body = (m, none) := by
    rw [hmv]
    apply ParseUint_of_digits a body hbne hall
    rw [← hmv]
    cases a <;> simp only [Arch.intSize] at hrange ⊢ <;> omega
  unfold ParseInt
  rw [if_neg ht]
  simp only [hneg, hbody, hPU]
  cases a <;> cases neg <;>
    simp only [Arch.minInt, Arch.maxInt, Arch.intSize] at hlo hhi hrange ⊢ <;>
    simp at hnm <;> subst hnm
  · have h1 : m < 2147483648 := by norm_num at hhi; omega
    have h2 := toSigned_64_of_range (m : Int) (by omega) (by omega)
    simp [h2]
    omega
  · have h1 : m ≤ 2147483648 := by norm_num at hlo; omega
    have h2 := toSigned_64_of_range (m : Int) (by omega) (by omega)
    have h3 := toSigned_64_of_range (-(m : Int)) (by omega) (by omega)
    simp [h2, h3]
    omega
  · have h1 : m < 9223372036854775808 := by norm_num at hhi; omega
    have h2 := toSigned_64_of_range (m : Int) (by omega) (by omega)
    simp [h2]
    omega
  · have h1 : m ≤ 9223372036854775808 := by norm_num at hlo; omega
    have hcut : ¬ (m > 9223372036854775808) := by omega
    by_cases hmin : m = 9223372036854775808
    · subst hmin
      simp [toSigned_64_min]
    · have h2 := toSigned_64_of_range (m : Int) (by omega) (by omega)
      have h3 := toSigned_64_of_range (-(m : Int)) (by omega) (by omega)
      simp [h2, h3]
      omega

/-- What `ParseInt` does once `ParseUint` has reported a range error. -/
theorem ParseInt_after_rangeerr (a : Arch) (t body : GoString) (ht : t ≠ [])
    (hbody : (if t.head? = some 43 ∨ t.head? = some 45 then t.tail else t) = body)
    (hPU : ParseUint a body = (2 ^ a.intSize - 1, some (rangeError fnParseUint body))) :
    ParseInt a t = (a.maxInt, some (rangeError fnParseInt t)) ∨
    ParseInt a t = (a.minInt, some (rangeError fnParseInt t)) := by
  unfold ParseInt
  rw [if_neg ht]
  simp only [hbody, hPU, rangeError]
  cases a <;> cases decide (t.head? = some 45) <;>
    simp [Arch.intSize, Arch.maxInt, Arch.minInt] <;> decide

theorem ParseInt_after_synerr (a : Arch) (t body : GoString) (ht : t ≠ [])
    (hbody : (if t.head? = some 43 ∨ t.head? = some 45 then t.tail else t) = body)
    (hPU : ParseUint a body = (0, some (syntaxError fnParseUint body))) :
    ParseInt a t = (0, some (syntaxError fnParseInt t)) := by
  unfold ParseInt
  rw [if_neg ht]
  simp only [hbody, hPU, syntaxError]

/-- `ParseInt` on a text that is not a decimal integer fitting `int` fails: with
a syntax error and result `0`, or with a range error and the extreme value of
the sign. -/
theorem ParseInt_of_not_decimal (a : Arch) (t : GoString)
    (h : ∀ n, decimalValue t = some n → ¬ (a.minInt ≤ n ∧ n ≤ a.maxInt)) :
    ParseInt a t = (0, some (syntaxError fnParseInt t)) ∨
    ParseInt a t = (a.maxInt, some (rangeError fnParseInt t)) ∨
    ParseInt a t = (a.minInt, some (rangeError fnParseInt t)) := by
  by_cases ht : t = []
  · left
    unfold ParseInt
    rw [if_pos ht]
  obtain ⟨neg, sgn, body, hneg, -, hbody, -, -, -, -, hval⟩ := sign_cases t ht
  cases hu : unsignedValue body with
  | none =>
    rcases ParseUint_of_not_digits a body hu with hPU | hPU
    · exact Or.inl (ParseInt_after_synerr a t body ht hbody hPU)
    · exact Or.inr (ParseInt_after_rangeerr a t body ht hbody hPU)
  | some m =>
    obtain ⟨hbne, hall, hmv⟩ := unsignedValue_eq_some body m hu
    right
    by_cases hbig : 2 ^ a.intSize - 1 < m
    · apply ParseInt_after_rangeerr a t body ht hbody
      rw [hmv] at hbig
      exact ParseUint_of_overflow a body hbne hall hbig
    · have hPU : ParseUint a body = (m, none) := by
        rw [hmv]
        apply ParseUint_of_digits a body hbne hall
        rw [← hmv]
        omega
      have hout := h _ (by rw [hval, hu]; rfl)
      unfold ParseInt
      rw [if_neg ht]
      simp only [hneg, hbody, hPU]
      cases a <;> cases neg <;>
        simp only [Arch.minInt, Arch.maxInt, Arch.intSize] at hout hbig ⊢
      · have h1 : m ≥ 2147483648 := by norm_num at hout; omega
        left
        rw [if_pos ⟨trivial, by norm_num; omega⟩]
        congr 1
      · have h1 : m > 2147483648 := by norm_num at hout; omega
        right
        rw [if_neg (by simp), if_pos ⟨trivial, by norm_num; omega⟩]
        congr 1
      · have h1 : m ≥ 9223372036854775808 := by norm_num at hout; omega
        left
        rw [if_pos ⟨trivial, by norm_num; omega⟩]
        congr 1
      · have h1 : m > 9223372036854775808 := by norm_num at hout; omega
        right
        rw [if_neg (by simp), if_pos ⟨trivial, by norm_num; omega⟩]
        congr 1

/-- The fast path of `Atoi`: a short text is either a decimal integer, which
then fits `int` and is returned, or it is rejected with a syntax error. -/
theorem Atoi_fast_path (a : Arch) (t : GoString)
    (hcond : (a.intSize = 32 ∧ (0 < t.length ∧ t.length < 10)) ∨
      (a.intSize = 64 ∧ (0 < t.length ∧ t.length < 19))) :
    (∃ n, decimalValue t = some n ∧ a.minInt ≤ n ∧ n ≤ a.maxInt ∧ Atoi a t = (n, none)) ∨
    (decimalValue t = none ∧ Atoi a t = (0, some (.NumError (syntaxError fnAtoi t)))) := by
  have ht : t ≠ [] := by
    rintro rfl
    simp at hcond
  obtain ⟨neg, sgn, body, hneg, hsgn, -, hbody, hne, -, hlen, hval⟩ := sign_cases t ht
  have hneg2 : (t.head? = some 45) ↔ neg = true := by
    rw [← hneg]
    simp
  have hw : 1 ≤ a.intSize := by cases a <;> simp [Arch.intSize]
  have hpow : (10 : Int) ^ body.length ≤ 2 ^ (a.intSize - 1) := by
    have hbl : body.length ≤ t.length := by omega
    cases a
    · have h9 : body.length ≤ 9 := by simp [Arch.intSize] at hcond; omega
      calc (10 : Int) ^ body.length ≤ 10 ^ 9 := pow_le_pow_right₀ (by norm_num) h9
        _ ≤ 2 ^ (Arch.intSize .bits32 - 1) := by norm_num [Arch.intSize]
    · have h18 : body.length ≤ 18 := by simp [Arch.intSize] at hcond; omega
      calc (10 : Int) ^ body.length ≤ 10 ^ 18 := pow_le_pow_right₀ (by norm_num) h18
        _ ≤ 2 ^ (Arch.intSize .bits64 - 1) := by norm_num [Arch.intSize]
  unfold Atoi
  rw [if_pos hcond]
  simp only [hsgn, hbody]
  by_cases hempty : sgn = true ∧ body.length < 1
  · rw [if_pos hempty]
    right
    have hnil : body = [] := List.length_eq_zero.1 (by omega)
    refine ⟨?_, rfl⟩
    rw [hval, hnil]
    rfl
  · rw [if_neg hempty]
    have hbne : body ≠ [] := by
      cases hs : sgn with
      | false => exact hne hs
      | true =>
        intro hnil
        apply hempty
        rw [hnil]
        exact ⟨hs, by simp⟩
    by_cases hall : body.all isDigit = true
    · left
      have hlt : digitsVal 0 body < 10 ^ body.length := by
        simpa using digitsVal_lt body 0 hall
      have hlt2 : (digitsVal 0 body : Int) < 2 ^ (a.intSize - 1) := by
        have : ((digitsVal 0 body : Nat) : Int) < 10 ^ body.length := by exact_mod_cast hlt
        omega
      have hloop := atoiLoop_of_digits a.intSize hw body 0 hall hlt2
      rw [Nat.cast_zero] at hloop
      rw [hloop]
      have hu : unsignedValue body = some (digitsVal 0 body) := by
        unfold unsignedValue
        rw [if_pos ⟨hbne, hall⟩]
      have hpos : (0 : Int) ≤ (digitsVal 0 body : Nat) := Int.natCast_nonneg _
      refine ⟨if neg = true then -(digitsVal 0 body : Int) else (digitsVal 0 body : Int),
        by rw [hval, hu]; rfl, ?_, ?_, ?_⟩
      · unfold Arch.minInt
        split_ifs <;> omega
      · unfold Arch.maxInt
        split_ifs <;> omega
      · simp only [hneg2]
        cases neg with
        | false => simp
        | true =>
          simp only [if_true]
          rw [toSigned_of_range a.intSize _ hw (by omega) (by omega)]
    · right
      have hbad : body.all isDigit = false := by simpa using hall
      rw [atoiLoop_of_not_digits a.intSize body 0 hbad]
      refine ⟨?_, rfl⟩
      have hu : unsignedValue body = none := by
        unfold unsignedValue
        rw [if_neg (fun hc => hall hc.2)]
      rw [hval, hu]
      rfl

theorem toSigned_int_of_range (a : Arch) (n : Int) (hlo : a.minInt ≤ n) (hhi : n ≤ a.maxInt) :
    toSigned a.intSize n = n := by
  unfold Arch.minInt at hlo
  unfold Arch.maxInt at hhi
  exact toSigned_of_range a.intSize n (by cases a <;> simp [Arch.intSize]) hlo (by omega)

theorem minInt_le_maxInt (a : Arch) : a.minInt ≤ a.maxInt := by
  cases a <;> simp [Arch.minInt, Arch.maxInt, Arch.intSize]

theorem minInt_le_zero (a : Arch) : a.minInt ≤ 0 := by
  cases a <;> simp [Arch.minInt, Arch.intSize]

theorem zero_le_maxInt (a : Arch) : 0 ≤ a.maxInt := by
  cases a <;> simp [Arch.maxInt, Arch.intSize]

/-- `Atoi` accepts every decimal integer text whose value fits `int` and
returns that value. -/
theorem Atoi_of_decimal (a : Arch) (t : GoString) (n : Int)
    (h : decimalValue t = some n) (hlo : a.minInt ≤ n) (hhi : n ≤ a.maxInt) :
    Atoi a t = (n, none) := by
  by_cases hcond : (a.intSize = 32 ∧ (0 < t.length ∧ t.length < 10)) ∨
      (a.intSize = 64 ∧ (0 < t.length ∧ t.length < 19))
  · rcases Atoi_fast_path a t hcond with ⟨n1, hn1, -, -, hres⟩ | ⟨hnone, -⟩
    · rw [h, Option.some.injEq] at hn1
      rw [hres, hn1]
    · rw [h] at hnone
      exact absurd hnone (by simp)
  · unfold Atoi
    rw [if_neg hcond, ParseInt_of_decimal a t n h hlo hhi]
    simp only [Option.map_none']
    rw [toSigned_int_of_range a n hlo hhi]

/-- `Atoi` rejects every text that is not a decimal integer fitting `int`: with
a syntax error and result `0`, or with a range error and the extreme value of
the sign.  The error is a `*NumError` naming `Atoi` and the text. -/
theorem Atoi_of_not_decimal (a : Arch) (t : GoString)
    (h : ∀ n, decimalValue t = some n → ¬ (a.minInt ≤ n ∧ n ≤ a.maxInt)) :
    Atoi a t = (0, some (.NumError (syntaxError fnAtoi t))) ∨
    Atoi a t = (a.maxInt, some (.NumError (rangeError fnAtoi t))) ∨
    Atoi a t = (a.minInt, some (.NumError (rangeError fnAtoi t))) := by
  by_cases hcond : (a.intSize = 32 ∧ (0 < t.length ∧ t.length < 10)) ∨
      (a.intSize = 64 ∧ (0 < t.length ∧ t.length < 19))
  · rcases Atoi_fast_path a t hcond with ⟨n1, hn1, hlo, hhi, -⟩ | ⟨-, hres⟩
    · exact absurd ⟨hlo, hhi⟩ (h n1 hn1)
    · exact Or.inl hres
  · unfold Atoi
    rw [if_neg hcond]
    rcases ParseInt_of_not_decimal a t h with hP | hP | hP
    · left
      rw [hP]
      simp only [Option.map_some', syntaxError]
      rw [toSigned_int_of_range a 0 (minInt_le_zero a) (zero_le_maxInt a)]
    · right; left
      rw [hP]
      simp only [Option.map_some', rangeError]
      rw [toSigned_int_of_range a _ (minInt_le_maxInt a) (le_refl _)]
    · right; right
      rw [hP]
      simp only [Option.map_some', rangeError]
      rw [toSigned_int_of_range a _ (le_refl _) (minInt_le_maxInt a)]

/-- The error `Atoi` returns, when there is one, is a `*NumError`. -/
theorem Atoi_error_is_NumError (a : Arch) (t : GoString) (e : Error)
    (h : (Atoi a t).2 = some e) : ∃ k, e = .NumError { Func := fnAtoi, Num := t, Err := k } := by
  by_cases hd : ∃ n, decimalValue t = some n ∧ a.minInt ≤ n ∧ n ≤ a.maxInt
  · obtain ⟨n, hn, hlo, hhi⟩ := hd
    rw [Atoi_of_decimal a t n hn hlo hhi] at h
    exact absurd h (by simp)
  · have hnot : ∀ n, decimalValue t = some n → ¬ (a.minInt ≤ n ∧ n ≤ a.maxInt) :=
      fun n hn hr => hd ⟨n, hn, hr⟩
    rcases Atoi_of_not_decimal a t hnot with hA | hA | hA <;>
      rw [hA] at h <;> simp only [Option.some.injEq] at h <;> subst h
    · exact ⟨.ErrSyntax, rfl⟩
    · exact ⟨.ErrRange, rfl⟩
    · exact ⟨.ErrRange, rfl⟩

/-! ## Facts about the decimal rendering -/

theorem digitByte_val (d : Nat) : (digitByte d).val = 48 + d % 10 := by
  have hlt : 48 + d % 10 < 256 := by omega
  simp only [digitByte, Fin.ofNat]
  exact Nat.mod_eq_of_lt hlt

theorem isDigit_digitByte (d : Nat) : isDigit (digitByte d) = true := by
  rw [isDigit_iff, digitByte_val]
  omega

theorem decimalNatAux_spec (fuel : Nat) :
    ∀ n : Nat, n < fuel →
      decimalNatAux fuel n ≠ [] ∧ (decimalNatAux fuel n).all isDigit = true ∧
        digitsVal 0 (decimalNatAux fuel n) = n := by
  induction fuel with
  | zero => intro n h; omega
  | succ fuel ih =>
    intro n h
    unfold decimalNatAux
    by_cases h10 : n < 10
    · rw [if_pos h10]
      refine ⟨by simp, by simp [isDigit_digitByte], ?_⟩
      rw [digitsVal_cons, digitsVal_nil, digitByte_val]
      omega
    · rw [if_neg h10]
      obtain ⟨-, hall, hval⟩ := ih (n / 10) (by omega)
      refine ⟨by simp, ?_, ?_⟩
      · rw [List.all_append, hall]
        simp [isDigit_digitByte]
      · rw [digitsVal_append_singleton, hval, digitByte_val]
        omega

theorem decimalValue_of_digits (cs : List Byte) (hne : cs ≠ [])
    (hall : cs.all isDigit = true) : decimalValue cs = some (digitsVal 0 cs : Int) := by
  cases cs with
  | nil => exact absurd rfl hne
  | cons c rest =>
    have hc : isDigit c = true := by
      rw [List.all_cons, Bool.and_eq_true] at hall
      exact hall.1
    rw [isDigit_iff] at hc
    have hu : unsignedValue (c :: rest) = some (digitsVal 0 (c :: rest)) := by
      unfold unsignedValue
      rw [if_pos ⟨hne, hall⟩]
    simp only [decimalValue]
    rw [if_neg (by omega), if_neg (by omega), hu]
    rfl

theorem decimalValue_minus_digits (cs : List Byte) (hne : cs ≠ [])
    (hall : cs.all isDigit = true) :
    decimalValue ((45 : Byte) :: cs) = some (-(digitsVal 0 cs : Int)) := by
  have hu : unsignedValue cs = some (digitsVal 0 cs) := by
    unfold unsignedValue
    rw [if_pos ⟨hne, hall⟩]
  have e45 : ((45 : Byte) : Nat) = 45 := rfl
  simp only [decimalValue]
  rw [if_pos e45, hu]
  rfl

/-- The decimal rendering of `n` is a decimal integer text that denotes `n`. -/
theorem decimalValue_decimal (n : Int) : decimalValue (decimal n) = some n := by
  obtain ⟨hne, hall, hval⟩ := decimalNatAux_spec (n.natAbs + 1) n.natAbs (by omega)
  unfold decimal decimalNat
  by_cases hneg : n < 0
  · rw [if_pos hneg, decimalValue_minus_digits _ hne hall, hval]
    congr 1
    omega
  · rw [if_neg hneg, decimalValue_of_digits _ hne hall, hval]
    congr 1
    omega

/-! ## The write-once gate -/

/-- C1 (write-once freeze): on a session with `written = true`, each of the
eight mutating operations (`PutString`, `PutBool`, `PutInt`, `PopString`,
`PopBool`, `PopInt`, `Remove`, `Clear`) returns `ErrAlreadyWritten` (with the
zero value for the Pop operations) and hands back the session exactly as it
was: same values map, same `modified`, same `written`.  This holds for every
key and value, so also when the key is absent or holds a value of another
type. -/
theorem write_once_freeze (a : Arch) (s : Session) (key : GoString) (sv : GoString)
    (bv : Bool) (iv : Int) (h : s.written = true) :
    PutString (.bound s) key sv = (some .ErrAlreadyWritten, .bound s) ∧
    PutBool (.bound s) key bv = (some .ErrAlreadyWritten, .bound s) ∧
    PutInt (.bound s) key iv = (some .ErrAlreadyWritten, .bound s) ∧
    PopString (.bound s) key = (([], some .ErrAlreadyWritten), .bound s) ∧
    PopBool (.bound s) key = ((false, some .ErrAlreadyWritten), .bound s) ∧
    PopInt a (.bound s) key = ((0, some .ErrAlreadyWritten), .bound s) ∧
    Remove (.bound s) key = (some .ErrAlreadyWritten, .bound s) ∧
    Clear (.bound s) = (some .ErrAlreadyWritten, .bound s) := by
  simp [PutString, PutBool, PutInt, PopString, PopBool, PopInt, Remove, Clear,
    sessionFromContext, h]

/-- Witness of C1 on the frozen sample session, at the key `"age"`, which holds
an int (a type mismatch for `PopString` and `PopBool`). -/
theorem write_once_freeze_witness :
    frozen.written = true ∧
    PutString (.bound frozen) (ascii "age") (ascii "x") = (some .ErrAlreadyWritten, .bound frozen) ∧
    PutBool (.bound frozen) (ascii "age") true = (some .ErrAlreadyWritten, .bound frozen) ∧
    PutInt (.bound frozen) (ascii "age") 9 = (some .ErrAlreadyWritten, .bound frozen) ∧
    PopString (.bound frozen) (ascii "age") = (([], some .ErrAlreadyWritten), .bound frozen) ∧
    PopBool (.bound frozen) (ascii "age") = ((false, some .ErrAlreadyWritten), .bound frozen) ∧
    PopInt .bits64 (.bound frozen) (ascii "age") = ((0, some .ErrAlreadyWritten), .bound frozen) ∧
    Remove (.bound frozen) (ascii "age") = (some .ErrAlreadyWritten, .bound frozen) ∧
    Clear (.bound frozen) = (some .ErrAlreadyWritten, .bound frozen) :=
  ⟨rfl, write_once_freeze .bits64 frozen (ascii "age") (ascii "x") true 9 rfl⟩

/-! ## Put and Get -/

/-- C2 (Put/Get round trip): on a session with `written = false`, for every key
and every value of type string, bool or int, `PutT(key, v)` returns a nil error
and `GetT(key)` on the resulting state returns `(v, nil)`, whatever the key
held before. -/
theorem put_get_round_trip (a : Arch) (s : Session) (key : GoString) (sv : GoString)
    (bv : Bool) (iv : Int) (h : s.written = false) :
    ((PutString (.bound s) key sv).1 = none ∧
      (GetString (PutString (.bound s) key sv).2 key).1 = (sv, none)) ∧
    ((PutBool (.bound s) key bv).1 = none ∧
      (GetBool (PutBool (.bound s) key bv).2 key).1 = (bv, none)) ∧
    ((PutInt (.bound s) key iv).1 = none ∧
      (GetInt a (PutInt (.bound s) key iv).2 key).1 = (iv, none)) := by
  simp [PutString, PutBool, PutInt, GetString, GetBool, GetInt, sessionFromContext, h,
    mapGet_mapSet_self]

/-- Witness of C2 on the sample session, overwriting the `json.Number` under
`"count"` with a value of each type. -/
theorem put_get_round_trip_witness :
    seeded.written = false ∧
    ((PutString (.bound seeded) (ascii "count") (ascii "x")).1 = none ∧
      (GetString (PutString (.bound seeded) (ascii "count") (ascii "x")).2 (ascii "count")).1
        = (ascii "x", none)) ∧
    ((PutBool (.bound seeded) (ascii "count") true).1 = none ∧
      (GetBool (PutBool (.bound seeded) (ascii "count") true).2 (ascii "count")).1
        = (true, none)) ∧
    ((PutInt (.bound seeded) (ascii "count") (-3)).1 = none ∧
      (GetInt .bits64 (PutInt (.bound seeded) (ascii "count") (-3)).2 (ascii "count")).1
        = (-3, none)) :=
  ⟨rfl, put_get_round_trip .bits64 seeded (ascii "count") (ascii "x") true (-3) rfl⟩

/-- C5 (Put postcondition): on a session with `written = false`, for every key
and value, `PutString`, `PutBool` and `PutInt` return nil and lead to a session
in which the key holds the value put and `modified = true` (`written` and the
error do not depend on what the key held before: absent, same type or another
type). -/
theorem put_postcondition (s : Session) (key : GoString) (sv : GoString) (bv : Bool)
    (iv : Int) (h : s.written = false) :
    (∃ s1, PutString (.bound s) key sv = (none, .bound s1) ∧
      mapGet s1.values key = some (.string sv) ∧ s1.modified = true ∧ s1.written = false) ∧
    (∃ s1, PutBool (.bound s) key bv = (none, .bound s1) ∧
      mapGet s1.values key = some (.bool bv) ∧ s1.modified = true ∧ s1.written = false) ∧
    (∃ s1, PutInt (.bound s) key iv = (none, .bound s1) ∧
      mapGet s1.values key = some (.int iv) ∧ s1.modified = true ∧ s1.written = false) := by
  refine ⟨⟨{ s with values := mapSet s.values key (.string sv), modified := true },
      ?_, ?_, rfl, h⟩,
    ⟨{ s with values := mapSet s.values key (.bool bv), modified := true }, ?_, ?_, rfl, h⟩,
    ⟨{ s with values := mapSet s.values key (.int iv), modified := true }, ?_, ?_, rfl, h⟩⟩
  · simp [PutString, sessionFromContext, h]
  · exact mapGet_mapSet_self _ _ _
  · simp [PutBool, sessionFromContext, h]
  · exact mapGet_mapSet_self _ _ _
  · simp [PutInt, sessionFromContext, h]
  · exact mapGet_mapSet_self _ _ _

/-- Witness of C5 on the sample session at the key `"name"`, which holds a
string: same type for `PutString`, another type for `PutBool` and `PutInt`. -/
theorem put_postcondition_witness :
    seeded.written = false ∧
    (∃ s1, PutString (.bound seeded) (ascii "name") (ascii "bob") = (none, .bound s1) ∧
      mapGet s1.values (ascii "name") = some (.string (ascii "bob")) ∧
      s1.modified = true ∧ s1.written = false) ∧
    (∃ s1, PutBool (.bound seeded) (ascii "name") false = (none, .bound s1) ∧
      mapGet s1.values (ascii "name") = some (.bool false) ∧
      s1.modified = true ∧ s1.written = false) ∧
    (∃ s1, PutInt (.bound seeded) (ascii "name") 12 = (none, .bound s1) ∧
      mapGet s1.values (ascii "name") = some (.int 12) ∧
      s1.modified = true ∧ s1.written = false) :=
  ⟨rfl, put_postcondition seeded (ascii "name") (ascii "bob") false 12 rfl⟩

/-! ## Pop -/

/-- C3 (Pop removes): on a session with `written = false`, if the key holds a
value of the requested type (a string for `PopString`, a bool for `PopBool`, a
native int or a `json.Number` that `Atoi` accepts for `PopInt`), the Pop
returns that value with a nil error, the resulting session has
`modified = true`, and on it the Get of the same type returns the zero value
with `ErrKeyNotFound`. -/
theorem pop_removes (a : Arch) (s : Session) (key : GoString) (h : s.written = false) :
    (∀ str, mapGet s.values key = some (.string str) →
      (PopString (.bound s) key).1 = (str, none) ∧
      (∃ s1, (PopString (.bound s) key).2 = .bound s1 ∧ s1.modified = true) ∧
      (GetString (PopString (.bound s) key).2 key).1 = ([], some .ErrKeyNotFound)) ∧
    (∀ b, mapGet s.values key = some (.bool b) →
      (PopBool (.bound s) key).1 = (b, none) ∧
      (∃ s1, (PopBool (.bound s) key).2 = .bound s1 ∧ s1.modified = true) ∧
      (GetBool (PopBool (.bound s) key).2 key).1 = (false, some .ErrKeyNotFound)) ∧
    (∀ i, mapGet s.values key = some (.int i) →
      (PopInt a (.bound s) key).1 = (i, none) ∧
      (∃ s1, (PopInt a (.bound s) key).2 = .bound s1 ∧ s1.modified = true) ∧
      (GetInt a (PopInt a (.bound s) key).2 key).1 = (0, some .ErrKeyNotFound)) ∧
    (∀ t, mapGet s.values key = some (.Number t) → (Atoi a t).2 = none →
      (PopInt a (.bound s) key).1 = ((Atoi a t).1, none) ∧
      (∃ s1, (PopInt a (.bound s) key).2 = .bound s1 ∧ s1.modified = true) ∧
      (GetInt a (PopInt a (.bound s) key).2 key).1 = (0, some .ErrKeyNotFound)) := by
  refine ⟨?_, ?_, ?_, ?_⟩
  · intro str hk
    simp [PopString, GetString, sessionFromContext, h, hk, mapGet_mapDelete_self]
  · intro b hk
    simp [PopBool, GetBool, sessionFromContext, h, hk, mapGet_mapDelete_self]
  · intro i hk
    simp [PopInt, popIntCommit, GetInt, sessionFromContext, h, hk, mapGet_mapDelete_self]
  · intro t hk hok
    cases hA : Atoi a t with
    | mk i oe =>
      rw [hA] at hok
      simp only at hok
      subst hok
      simp [PopInt, popIntCommit, GetInt, sessionFromContext, h, hk, Number.String, hA,
        mapGet_mapDelete_self]

/-- Witness of C3 on the sample session: the string under `"name"` is popped,
and the scenario of the `json.Number` `"7"` under `"count"`, where `PopInt`
gives `(7, nil)` and `GetInt` then gives `(0, ErrKeyNotFound)`. -/
theorem pop_removes_witness :
    seeded.written = false ∧
    mapGet seeded.values (ascii "count") = some (.Number (ascii "7")) ∧
    ((PopString (.bound seeded) (ascii "name")).1 = (ascii "alice", none) ∧
      (∃ s1, (PopString (.bound seeded) (ascii "name")).2 = .bound s1 ∧ s1.modified = true) ∧
      (GetString (PopString (.bound seeded) (ascii "name")).2 (ascii "name")).1
        = ([], some .ErrKeyNotFound)) ∧
    ((PopInt .bits64 (.bound seeded) (ascii "count")).1 = (7, none) ∧
      (∃ s1, (PopInt .bits64 (.bound seeded) (ascii "count")).2 = .bound s1 ∧
        s1.modified = true) ∧
      (GetInt .bits64 (PopInt .bits64 (.bound seeded) (ascii "count")).2 (ascii "count")).1
        = (0, some .ErrKeyNotFound)) :=
  ⟨rfl, rfl,
    (pop_removes .bits64 seeded (ascii "name") rfl).1 (ascii "alice") rfl,
    (pop_removes .bits64 seeded (ascii "count") rfl).2.2.2 (ascii "7") rfl rfl⟩

/-- C4 (Pop is atomic on failure): for every session and key, if `PopString`,
`PopBool` or `PopInt` returns `ErrKeyNotFound` or `ErrTypeAssertionFailed`, the
session after the call is the session before it (same entries with the same
values, same `modified`).  On the empty session `PopInt("age")` returns
`(0, ErrKeyNotFound)` and leaves the map empty and `modified` false. -/
theorem pop_atomic_on_failure (a : Arch) (s : Session) (key : GoString) :
    (((PopString (.bound s) key).1.2 = some .ErrKeyNotFound ∨
        (PopString (.bound s) key).1.2 = some .ErrTypeAssertionFailed) →
      (PopString (.bound s) key).2 = .bound s) ∧
    (((PopBool (.bound s) key).1.2 = some .ErrKeyNotFound ∨
        (PopBool (.bound s) key).1.2 = some .ErrTypeAssertionFailed) →
      (PopBool (.bound s) key).2 = .bound s) ∧
    (((PopInt a (.bound s) key).1.2 = some .ErrKeyNotFound ∨
        (PopInt a (.bound s) key).1.2 = some .ErrTypeAssertionFailed) →
      (PopInt a (.bound s) key).2 = .bound s) ∧
    PopInt a (.bound emptySession) (ascii "age")
      = ((0, some .ErrKeyNotFound), .bound emptySession) := by
  refine ⟨?_, ?_, ?_, ?_⟩
  · unfold PopString
    simp only [sessionFromContext]
    split_ifs
    · simp
    · split
      · simp
      · split <;> simp
  · unfold PopBool
    simp only [sessionFromContext]
    split_ifs
    · simp
    · split
      · simp
      · split <;> simp
  · unfold PopInt
    simp only [sessionFromContext]
    split_ifs
    · simp
    · split
      · simp
      · split
        · simp [popIntCommit]
        · split <;> simp [popIntCommit]
        · simp
  · simp [PopInt, sessionFromContext, emptySession, mapGet]

/-- Witness of C4 on the sample session: `PopBool("name")` meets a string and
fails with `ErrTypeAssertionFailed`, `PopString("nope")` meets no key and fails
with `ErrKeyNotFound`, `PopInt("name")` fails with `ErrTypeAssertionFailed`;
the session is unchanged each time. -/
theorem pop_atomic_on_failure_witness :
    (PopString (.bound seeded) (ascii "nope")).1.2 = some .ErrKeyNotFound ∧
    (PopString (.bound seeded) (ascii "nope")).2 = .bound seeded ∧
    (PopBool (.bound seeded) (ascii "name")).1.2 = some .ErrTypeAssertionFailed ∧
    (PopBool (.bound seeded) (ascii "name")).2 = .bound seeded ∧
    (PopInt .bits64 (.bound seeded) (ascii "name")).1.2 = some .ErrTypeAssertionFailed ∧
    (PopInt .bits64 (.bound seeded) (ascii "name")).2 = .bound seeded :=
  ⟨rfl, (pop_atomic_on_failure .bits64 seeded (ascii "nope")).1 (Or.inl rfl),
    rfl, (pop_atomic_on_failure .bits64 seeded (ascii "name")).2.1 (Or.inr rfl),
    rfl, (pop_atomic_on_failure .bits64 seeded (ascii "name")).2.2.1 (Or.inr rfl)⟩

/-! ## Integers stored as `json.Number` -/

/-- C6 (numeric normalization): for every integer `n` in the range of `int`
(on either architecture), if the key holds the `json.Number` whose text is the
decimal rendering of `n`, then `GetInt` returns `(n, nil)` and leaves the
session alone, which is the result `GetInt` gives on any session where the key
holds the native int `n`. -/
theorem numeric_normalization (a : Arch) (s : Session) (key : GoString) (n : Int)
    (hlo : a.minInt ≤ n) (hhi : n ≤ a.maxInt)
    (hk : mapGet s.values key = some (.Number (decimal n))) :
    GetInt a (.bound s) key = ((n, none), .bound s) ∧
    ∀ s1 : Session, mapGet s1.values key = some (.int n) →
      (GetInt a (.bound s1) key).1 = (GetInt a (.bound s) key).1 := by
  have hA := Atoi_of_decimal a (decimal n) n (decimalValue_decimal n) hlo hhi
  have hG : GetInt a (.bound s) key = ((n, none), .bound s) := by
    simp [GetInt, sessionFromContext, hk, Number.String, hA]
  refine ⟨hG, ?_⟩
  intro s1 hk1
  rw [hG]
  simp [GetInt, sessionFromContext, hk1]

/-- Witness of C6: the text `"42"` is the decimal rendering of 42, and a
session holding it as a `json.Number` under `"n"` gives `GetInt = (42, nil)`;
likewise for the smallest 64-bit `int`, whose text takes the slow path of
`Atoi`. -/
theorem numeric_normalization_witness :
    decimal 42 = ascii "42" ∧
    Arch.minInt .bits64 ≤ 42 ∧ (42 : Int) ≤ Arch.maxInt .bits64 ∧
    GetInt .bits64 (.bound (holding (.Number (ascii "42")))) (ascii "n")
      = ((42, none), .bound (holding (.Number (ascii "42")))) ∧
    decimal (-9223372036854775808) = ascii "-9223372036854775808" ∧
    GetInt .bits64 (.bound (holding (.Number (ascii "-9223372036854775808")))) (ascii "n")
      = ((-9223372036854775808, none),
        .bound (holding (.Number (ascii "-9223372036854775808")))) :=
  ⟨by decide, by decide, by decide,
    (numeric_normalization .bits64 (holding (.Number (ascii "42"))) (ascii "n") 42
      (by decide) (by decide) (by decide)).1,
    by decide,
    (numeric_normalization .bits64 (holding (.Number (ascii "-9223372036854775808")))
      (ascii "n") (-9223372036854775808) (by decide) (by decide) (by decide)).1⟩

/-- C7 (numeric parse failure): if the key holds a `json.Number` whose text is
not a decimal integer (an optional sign followed by digits) with a value in the
range of `int`, then `GetInt` returns a non-nil error, which is the
`*NumError` that `Atoi` returns for that text; so does `PopInt` when
`written = false`; and that error is neither `ErrTypeAssertionFailed` nor
`ErrKeyNotFound`. -/
theorem numeric_parse_failure (a : Arch) (s : Session) (key : GoString) (t : GoString)
    (hk : mapGet s.values key = some (.Number t))
    (hbad : ∀ n, decimalValue t = some n → ¬ (a.minInt ≤ n ∧ n ≤ a.maxInt)) :
    ∃ k : NumErrKind,
      (Atoi a t).2 = some (.NumError { Func := fnAtoi, Num := t, Err := k }) ∧
      (GetInt a (.bound s) key).1.2
        = some (.NumError { Func := fnAtoi, Num := t, Err := k }) ∧
      (s.written = false →
        (PopInt a (.bound s) key).1.2
          = some (.NumError { Func := fnAtoi, Num := t, Err := k })) ∧
      Error.NumError { Func := fnAtoi, Num := t, Err := k } ≠ .ErrTypeAssertionFailed ∧
      Error.NumError { Func := fnAtoi, Num := t, Err := k } ≠ .ErrKeyNotFound := by
  have hshape : ∃ v k, Atoi a t = (v, some (.NumError { Func := fnAtoi, Num := t, Err := k })) := by
    rcases Atoi_of_not_decimal a t hbad with hA | hA | hA
    · exact ⟨_, .ErrSyntax, hA⟩
    · exact ⟨_, .ErrRange, hA⟩
    · exact ⟨_, .ErrRange, hA⟩
  obtain ⟨v, k, hA⟩ := hshape
  refine ⟨k, by rw [hA], ?_, ?_, by simp, by simp⟩
  · simp [GetInt, sessionFromContext, hk, Number.String, hA]
  · intro hw
    simp [PopInt, sessionFromContext, hk, Number.String, hA, hw]

/-- Witness of C7: the text `"abc"` under `"n"` is no decimal integer, and both
`GetInt` and `PopInt` answer with the syntax error of `Atoi`; the text
`"9223372036854775808"` is a decimal integer one above the largest 64-bit
`int`, and `GetInt` answers with the range error of `Atoi`. -/
theorem numeric_parse_failure_witness :
    decimalValue (ascii "abc") = none ∧
    (∃ k : NumErrKind,
      (Atoi .bits64 (ascii "abc")).2
        = some (.NumError { Func := fnAtoi, Num := ascii "abc", Err := k }) ∧
      (GetInt .bits64 (.bound (holding (.Number (ascii "abc")))) (ascii "n")).1.2
        = some (.NumError { Func := fnAtoi, Num := ascii "abc", Err := k }) ∧
      ((holding (.Number (ascii "abc"))).written = false →
        (PopInt .bits64 (.bound (holding (.Number (ascii "abc")))) (ascii "n")).1.2
          = some (.NumError { Func := fnAtoi, Num := ascii "abc", Err := k })) ∧
      Error.NumError { Func := fnAtoi, Num := ascii "abc", Err := k }
        ≠ .ErrTypeAssertionFailed ∧
      Error.NumError { Func := fnAtoi, Num := ascii "abc", Err := k } ≠ .ErrKeyNotFound) ∧
    decimalValue (ascii "9223372036854775808") = some 9223372036854775808 ∧
    (GetInt .bits64 (.bound (holding (.Number (ascii "9223372036854775808")))) (ascii "n")).1.2
      = some (.NumError { Func := fnAtoi, Num := ascii "9223372036854775808",
                          Err := .ErrRange }) :=
  ⟨by decide,
    numeric_parse_failure .bits64 (holding (.Number (ascii "abc"))) (ascii "n") (ascii "abc")
      (by decide)
      (fun _ hn =>
        Option.noConfusion ((by decide : decimalValue (ascii "abc") = none).symm.trans hn)),
    by decide,
    by decide⟩

/-! ## Type mismatches -/

/-- C8, as the code has it (type mismatch is a hard error): for every session
and key, `GetString` returns `ErrTypeAssertionFailed` whenever the key holds
anything that is not a string, `GetBool` whenever it holds anything that is not
a bool, and `GetInt` whenever it holds a string or a bool; and on a session
with `written = false`, `GetInt(k)` after `PutString(k, v)` (for every `v`, so
for `"42"`), and `GetString(k)` and `GetBool(k)` after `PutInt(k, n)`, return
`ErrTypeAssertionFailed`. -/
theorem type_mismatch_hard_error (a : Arch) (s : Session) (key : GoString) :
    (∀ v, mapGet s.values key = some v → (∀ str, v ≠ .string str) →
      GetString (.bound s) key = (([], some .ErrTypeAssertionFailed), .bound s)) ∧
    (∀ v, mapGet s.values key = some v → (∀ b, v ≠ .bool b) →
      GetBool (.bound s) key = ((false, some .ErrTypeAssertionFailed), .bound s)) ∧
    (∀ v, mapGet s.values key = some v → ((∃ str, v = .string str) ∨ (∃ b, v = .bool b)) →
      GetInt a (.bound s) key = ((0, some .ErrTypeAssertionFailed), .bound s)) ∧
    (s.written = false → ∀ sv,
      (GetInt a (PutString (.bound s) key sv).2 key).1
        = (0, some .ErrTypeAssertionFailed)) ∧
    (s.written = false → ∀ n,
      (GetString (PutInt (.bound s) key n).2 key).1 = ([], some .ErrTypeAssertionFailed) ∧
      (GetBool (PutInt (.bound s) key n).2 key).1 = (false, some .ErrTypeAssertionFailed)) := by
  refine ⟨?_, ?_, ?_, ?_, ?_⟩
  · intro v hk hv
    cases v with
    | string str => exact absurd rfl (hv str)
    | bool b => simp [GetString, sessionFromContext, hk]
    | int i => simp [GetString, sessionFromContext, hk]
    | Number t => simp [GetString, sessionFromContext, hk]
    | other tag => simp [GetString, sessionFromContext, hk]
  · intro v hk hv
    cases v with
    | string str => simp [GetBool, sessionFromContext, hk]
    | bool b => exact absurd rfl (hv b)
    | int i => simp [GetBool, sessionFromContext, hk]
    | Number t => simp [GetBool, sessionFromContext, hk]
    | other tag => simp [GetBool, sessionFromContext, hk]
  · intro v hk hv
    rcases hv with ⟨str, rfl⟩ | ⟨b, rfl⟩
    · simp [GetInt, sessionFromContext, hk]
    · simp [GetInt, sessionFromContext, hk]
  · intro h sv
    simp [PutString, GetInt, sessionFromContext, h, mapGet_mapSet_self]
  · intro h n
    simp [PutInt, GetString, GetBool, sessionFromContext, h, mapGet_mapSet_self]

/-- Witness of the amended C8 on the sample session: `"count"` holds a
`json.Number`, `"name"` a string; and the two Put scenarios at `"k"`. -/
theorem type_mismatch_hard_error_witness :
    GetString (.bound seeded) (ascii "count")
      = (([], some .ErrTypeAssertionFailed), .bound seeded) ∧
    GetBool (.bound seeded) (ascii "name")
      = ((false, some .ErrTypeAssertionFailed), .bound seeded) ∧
    GetInt .bits64 (.bound seeded) (ascii "name")
      = ((0, some .ErrTypeAssertionFailed), .bound seeded) ∧
    (GetInt .bits64 (PutString (.bound seeded) (ascii "k") (ascii "42")).2 (ascii "k")).1
      = (0, some .ErrTypeAssertionFailed) ∧
    ((GetString (PutInt (.bound seeded) (ascii "k") 42).2 (ascii "k")).1
        = ([], some .ErrTypeAssertionFailed) ∧
      (GetBool (PutInt (.bound seeded) (ascii "k") 42).2 (ascii "k")).1
        = (false, some .ErrTypeAssertionFailed)) :=
  ⟨(type_mismatch_hard_error .bits64 seeded (ascii "count")).1 (.Number (ascii "7")) rfl
      (fun _ h => Value.noConfusion h),
    (type_mismatch_hard_error .bits64 seeded (ascii "name")).2.1 (.string (ascii "alice")) rfl
      (fun _ h => Value.noConfusion h),
    (type_mismatch_hard_error .bits64 seeded (ascii "name")).2.2.1 (.string (ascii "alice")) rfl
      (Or.inl ⟨_, rfl⟩),
    (type_mismatch_hard_error .bits64 seeded (ascii "k")).2.2.2.1 rfl (ascii "42"),
    (type_mismatch_hard_error .bits64 seeded (ascii "k")).2.2.2.2 rfl 42⟩

/-- Counterexample to C8 as stated for every session: on the frozen sample
session `PutString("age", "42")` is refused, so `GetInt("age")` after it still
returns `(5, nil)`; likewise `PutInt("name", 1)` is refused and
`GetString("name")` after it returns `("alice", nil)`. -/
theorem type_mismatch_after_put_counterexample :
    frozen.written = true ∧
    (PutString (.bound frozen) (ascii "age") (ascii "42")).1 = some .ErrAlreadyWritten ∧
    (GetInt .bits64 (PutString (.bound frozen) (ascii "age") (ascii "42")).2 (ascii "age")).1
      = (5, none) ∧
    (GetInt .bits64 (PutString (.bound frozen) (ascii "age") (ascii "42")).2 (ascii "age")).1.2
      ≠ some .ErrTypeAssertionFailed ∧
    (PutInt (.bound frozen) (ascii "name") 1).1 = some .ErrAlreadyWritten ∧
    (GetString (PutInt (.bound frozen) (ascii "name") 1).2 (ascii "name")).1
      = (ascii "alice", none) ∧
    (GetString (PutInt (.bound frozen) (ascii "name") 1).2 (ascii "name")).1.2
      ≠ some .ErrTypeAssertionFailed := by
  decide

/-! ## Clear and Remove -/

/-- C9 (Clear is total): on a session with `written = false`, `Clear` returns
nil and leads to the session with an empty values map and `modified = true`
(`written` still false), on which `GetString`, `GetBool` and `GetInt` return
`ErrKeyNotFound` for every key; the map may have been empty already. -/
theorem clear_is_total (a : Arch) (s : Session) (h : s.written = false) :
    Clear (.bound s) = (none, .bound { values := [], written := false, modified := true }) ∧
    ∀ key : GoString,
      (GetString (Clear (.bound s)).2 key).1 = ([], some .ErrKeyNotFound) ∧
      (GetBool (Clear (.bound s)).2 key).1 = (false, some .ErrKeyNotFound) ∧
      (GetInt a (Clear (.bound s)).2 key).1 = (0, some .ErrKeyNotFound) := by
  have hC : Clear (.bound s)
      = (none, .bound { values := [], written := false, modified := true }) := by
    simp [Clear, sessionFromContext, h, clear_loop_eq_nil]
  refine ⟨hC, ?_⟩
  intro key
  rw [hC]
  simp [GetString, GetBool, GetInt, sessionFromContext, mapGet]

/-- Witness of C9 on the sample session (two keys) and on the empty session. -/
theorem clear_is_total_witness :
    seeded.written = false ∧ emptySession.written = false ∧
    Clear (.bound seeded)
      = (none, .bound { values := [], written := false, modified := true }) ∧
    Clear (.bound emptySession)
      = (none, .bound { values := [], written := false, modified := true }) ∧
    (GetString (Clear (.bound seeded)).2 (ascii "name")).1 = ([], some .ErrKeyNotFound) ∧
    (GetInt .bits64 (Clear (.bound seeded)).2 (ascii "count")).1
      = (0, some .ErrKeyNotFound) :=
  ⟨rfl, rfl, (clear_is_total .bits64 seeded rfl).1, (clear_is_total .bits64 emptySession rfl).1,
    ((clear_is_total .bits64 seeded rfl).2 (ascii "name")).1,
    ((clear_is_total .bits64 seeded rfl).2 (ascii "count")).2.2⟩

/-- C10 (Remove is unconditional and type-agnostic): on a session with
`written = false`, for every key, present or not and whatever its value,
`Remove` returns nil and leads to a session with `modified = true` in which the
key is absent: `GetString`, `GetBool` and `GetInt` return `ErrKeyNotFound`. -/
theorem remove_unconditional (a : Arch) (s : Session) (key : GoString)
    (h : s.written = false) :
    (Remove (.bound s) key).1 = none ∧
    (∃ s1, (Remove (.bound s) key).2 = .bound s1 ∧ mapGet s1.values key = none ∧
      s1.modified = true) ∧
    (GetString (Remove (.bound s) key).2 key).1 = ([], some .ErrKeyNotFound) ∧
    (GetBool (Remove (.bound s) key).2 key).1 = (false, some .ErrKeyNotFound) ∧
    (GetInt a (Remove (.bound s) key).2 key).1 = (0, some .ErrKeyNotFound) := by
  simp [Remove, GetString, GetBool, GetInt, sessionFromContext, h, mapGet_mapDelete_self]

/-- Witness of C10 on the sample session: removing `"count"`, which holds a
`json.Number`, and removing `"nope"`, which is absent. -/
theorem remove_unconditional_witness :
    seeded.written = false ∧
    (Remove (.bound seeded) (ascii "count")).1 = none ∧
    (GetInt .bits64 (Remove (.bound seeded) (ascii "count")).2 (ascii "count")).1
      = (0, some .ErrKeyNotFound) ∧
    (Remove (.bound seeded) (ascii "nope")).1 = none ∧
    (∃ s1, (Remove (.bound seeded) (ascii "nope")).2 = .bound s1 ∧
      mapGet s1.values (ascii "nope") = none ∧ s1.modified = true) :=
  ⟨rfl, (remove_unconditional .bits64 seeded (ascii "count") rfl).1,
    (remove_unconditional .bits64 seeded (ascii "count") rfl).2.2.2.2,
    (remove_unconditional .bits64 seeded (ascii "nope") rfl).1,
    (remove_unconditional .bits64 seeded (ascii "nope") rfl).2.1⟩

/-! ## Facts about the state after a call -/

/-- The three Get functions depend on the session only through what the key
holds. -/
theorem reads_frame (a : Arch) (s1 s2 : Session) (key : GoString)
    (h : mapGet s1.values key = mapGet s2.values key) :
    (GetString (.bound s1) key).1 = (GetString (.bound s2) key).1 ∧
    (GetBool (.bound s1) key).1 = (GetBool (.bound s2) key).1 ∧
    (GetInt a (.bound s1) key).1 = (GetInt a (.bound s2) key).1 := by
  simp only [GetString, GetBool, GetInt, sessionFromContext, h]
  cases mapGet s2.values key with
  | none => exact ⟨rfl, rfl, rfl⟩
  | some v => cases v <;> exact ⟨rfl, rfl, rfl⟩

theorem getString_state (s : Session) (key : GoString) :
    (GetString (.bound s) key).2 = .bound s := by
  unfold GetString
  simp only [sessionFromContext]
  split
  · rfl
  · split <;> rfl

theorem getBool_state (s : Session) (key : GoString) :
    (GetBool (.bound s) key).2 = .bound s := by
  unfold GetBool
  simp only [sessionFromContext]
  split
  · rfl
  · split <;> rfl

theorem getInt_state (a : Arch) (s : Session) (key : GoString) :
    (GetInt a (.bound s) key).2 = .bound s := by
  unfold GetInt
  simp only [sessionFromContext]
  split
  · rfl
  · split <;> rfl

/-- After `PopString` the request carries the session as it was, or the session
with the key deleted and `modified` set. -/
theorem popString_state (s : Session) (key : GoString) :
    ∃ s1, (PopString (.bound s) key).2 = .bound s1 ∧ s1.written = s.written ∧
      (s1 = s ∨ (s1.values = mapDelete s.values key ∧ s1.modified = true)) := by
  unfold PopString
  simp only [sessionFromContext]
  split_ifs
  · exact ⟨s, rfl, rfl, Or.inl rfl⟩
  · split
    · exact ⟨s, rfl, rfl, Or.inl rfl⟩
    · split
      · exact ⟨_, rfl, rfl, Or.inr ⟨rfl, rfl⟩⟩
      · exact ⟨s, rfl, rfl, Or.inl rfl⟩

theorem popBool_state (s : Session) (key : GoString) :
    ∃ s1, (PopBool (.bound s) key).2 = .bound s1 ∧ s1.written = s.written ∧
      (s1 = s ∨ (s1.values = mapDelete s.values key ∧ s1.modified = true)) := by
  unfold PopBool
  simp only [sessionFromContext]
  split_ifs
  · exact ⟨s, rfl, rfl, Or.inl rfl⟩
  · split
    · exact ⟨s, rfl, rfl, Or.inl rfl⟩
    · split
      · exact ⟨_, rfl, rfl, Or.inr ⟨rfl, rfl⟩⟩
      · exact ⟨s, rfl, rfl, Or.inl rfl⟩

theorem popInt_state (a : Arch) (s : Session) (key : GoString) :
    ∃ s1, (PopInt a (.bound s) key).2 = .bound s1 ∧ s1.written = s.written ∧
      (s1 = s ∨ (s1.values = mapDelete s.values key ∧ s1.modified = true)) := by
  unfold PopInt
  simp only [sessionFromContext]
  split_ifs
  · exact ⟨s, rfl, rfl, Or.inl rfl⟩
  · split
    · exact ⟨s, rfl, rfl, Or.inl rfl⟩
    · split
      · exact ⟨_, rfl, rfl, Or.inr ⟨rfl, rfl⟩⟩
      · split
        · exact ⟨s, rfl, rfl, Or.inl rfl⟩
        · exact ⟨_, rfl, rfl, Or.inr ⟨rfl, rfl⟩⟩
      · exact ⟨s, rfl, rfl, Or.inl rfl⟩

/-- After any call on a request that carries a session the request still
carries one, with the same `written`, and either unchanged or with `modified`
set. -/
theorem after_flags (a : Arch) (op : Op) (s : Session) :
    ∃ s1, op.after a (.bound s) = .bound s1 ∧ s1.written = s.written ∧
      (s1 = s ∨ s1.modified = true) := by
  cases op with
  | getString key => exact ⟨s, getString_state s key, rfl, Or.inl rfl⟩
  | getBool key => exact ⟨s, getBool_state s key, rfl, Or.inl rfl⟩
  | getInt key => exact ⟨s, getInt_state a s key, rfl, Or.inl rfl⟩
  | putString key val =>
    simp only [Op.after, PutString, sessionFromContext]
    split_ifs
    · exact ⟨s, rfl, rfl, Or.inl rfl⟩
    · exact ⟨_, rfl, rfl, Or.inr rfl⟩
  | putBool key val =>
    simp only [Op.after, PutBool, sessionFromContext]
    split_ifs
    · exact ⟨s, rfl, rfl, Or.inl rfl⟩
    · exact ⟨_, rfl, rfl, Or.inr rfl⟩
  | putInt key val =>
    simp only [Op.after, PutInt, sessionFromContext]
    split_ifs
    · exact ⟨s, rfl, rfl, Or.inl rfl⟩
    · exact ⟨_, rfl, rfl, Or.inr rfl⟩
  | popString key =>
    obtain ⟨s1, h1, h2, h3⟩ := popString_state s key
    exact ⟨s1, h1, h2, h3.imp id (fun h => h.2)⟩
  | popBool key =>
    obtain ⟨s1, h1, h2, h3⟩ := popBool_state s key
    exact ⟨s1, h1, h2, h3.imp id (fun h => h.2)⟩
  | popInt key =>
    obtain ⟨s1, h1, h2, h3⟩ := popInt_state a s key
    exact ⟨s1, h1, h2, h3.imp id (fun h => h.2)⟩
  | remove key =>
    simp only [Op.after, Remove, sessionFromContext]
    split_ifs
    · exact ⟨s, rfl, rfl, Or.inl rfl⟩
    · exact ⟨_, rfl, rfl, Or.inr rfl⟩
  | clear =>
    simp only [Op.after, Clear, sessionFromContext]
    split_ifs
    · exact ⟨s, rfl, rfl, Or.inl rfl⟩
    · exact ⟨_, rfl, rfl, Or.inr rfl⟩

/-- The flags after a sequence of calls: `written` as at the start, `modified`
still true if it was. -/
theorem run_flags (a : Arch) (ops : List Op) :
    ∀ s : Session, ∃ s1, run a ops (.bound s) = .bound s1 ∧ s1.written = s.written ∧
      (s.modified = true → s1.modified = true) := by
  induction ops with
  | nil => intro s; exact ⟨s, rfl, rfl, id⟩
  | cons op ops ih =>
    intro s
    obtain ⟨s1, h1, hw1, hm1⟩ := after_flags a op s
    obtain ⟨s2, h2, hw2, hm2⟩ := ih s1
    refine ⟨s2, ?_, hw2.trans hw1, ?_⟩
    · simp only [run, List.foldl_cons] at h2 ⊢
      rw [h1]
      exact h2
    · intro hm
      apply hm2
      rcases hm1 with rfl | h
      · exact hm
      · exact h

/-! ## Reads -/

/-- C11 (reads have no side effects): for every session and key, `GetString`,
`GetBool` and `GetInt` hand back the session as it was (same values map, same
`written`, same `modified`), whether they succeed or fail. -/
theorem reads_have_no_side_effects (a : Arch) (s : Session) (key : GoString) :
    (GetString (.bound s) key).2 = .bound s ∧
    (GetBool (.bound s) key).2 = .bound s ∧
    (GetInt a (.bound s) key).2 = .bound s := by
  refine ⟨?_, ?_, ?_⟩
  · unfold GetString
    simp only [sessionFromContext]
    split
    · rfl
    · split <;> rfl
  · unfold GetBool
    simp only [sessionFromContext]
    split
    · rfl
    · split <;> rfl
  · unfold GetInt
    simp only [sessionFromContext]
    split
    · rfl
    · split <;> rfl

/-- C12 (reads are unaffected by the freeze): if two sessions agree on whether
the key is present and on its value, then `GetString`, `GetBool` and `GetInt`
return the same value and the same error in both, whatever their `written` and
`modified` flags and their other keys.  So on an open session, after
`PutString("name", "alice")` and the flush that sets `written`,
`PutString("name", "bob")` fails with `ErrAlreadyWritten` and
`GetString("name")` still returns `("alice", nil)`. -/
theorem reads_unaffected_by_freeze (a : Arch) (s1 s2 : Session) (key : GoString)
    (h : mapGet s1.values key = mapGet s2.values key) :
    ((GetString (.bound s1) key).1 = (GetString (.bound s2) key).1 ∧
      (GetBool (.bound s1) key).1 = (GetBool (.bound s2) key).1 ∧
      (GetInt a (.bound s1) key).1 = (GetInt a (.bound s2) key).1) ∧
    (s1.written = false →
      ∃ s3, (PutString (.bound s1) (ascii "name") (ascii "alice")).2 = .bound s3 ∧
        (GetString (.bound s3) (ascii "name")).1 = (ascii "alice", none) ∧
        (PutString (.bound (markWritten s3)) (ascii "name") (ascii "bob")).1
          = some .ErrAlreadyWritten ∧
        (GetString
          (PutString (.bound (markWritten s3)) (ascii "name") (ascii "bob")).2
          (ascii "name")).1 = (ascii "alice", none)) := by
  refine ⟨?_, ?_⟩
  · simp only [GetString, GetBool, GetInt, sessionFromContext, h]
    cases mapGet s2.values key with
    | none => exact ⟨rfl, rfl, rfl⟩
    | some v => cases v <;> exact ⟨rfl, rfl, rfl⟩
  · intro hw
    refine ⟨{ s1 with values := mapSet s1.values (ascii "name") (.string (ascii "alice")),
                      modified := true }, ?_, ?_, ?_, ?_⟩
    · simp [PutString, sessionFromContext, hw]
    · simp [GetString, sessionFromContext, mapGet_mapSet_self]
    · simp [PutString, sessionFromContext, markWritten]
    · simp [PutString, GetString, sessionFromContext, markWritten, mapGet_mapSet_self]

/-- Witness of C12: the open sample session and the frozen one both hold the
string `"alice"` under `"name"` and differ in everything else. -/
theorem reads_unaffected_by_freeze_witness :
    mapGet seeded.values (ascii "name") = mapGet frozen.values (ascii "name") ∧
    seeded.written = false ∧ frozen.written = true ∧
    (GetString (.bound seeded) (ascii "name")).1 = (GetString (.bound frozen) (ascii "name")).1 ∧
    (GetString (.bound frozen) (ascii "name")).1 = (ascii "alice", none) ∧
    (∃ s3, (PutString (.bound emptySession) (ascii "name") (ascii "alice")).2 = .bound s3 ∧
      (GetString (.bound s3) (ascii "name")).1 = (ascii "alice", none) ∧
      (PutString (.bound (markWritten s3)) (ascii "name") (ascii "bob")).1
        = some .ErrAlreadyWritten ∧
      (GetString
        (PutString (.bound (markWritten s3)) (ascii "name") (ascii "bob")).2
        (ascii "name")).1 = (ascii "alice", none)) :=
  ⟨rfl, rfl, rfl,
    (reads_unaffected_by_freeze .bits64 seeded frozen (ascii "name") rfl).1.1,
    rfl,
    (reads_unaffected_by_freeze .bits64 emptySession emptySession (ascii "name") rfl).2 rfl⟩

/-- C14 (KeyNotFound exactly when absent): for every session and key,
`GetString`, `GetBool` and `GetInt` return `ErrKeyNotFound` if and only if the
key is absent from the values map; and on a session with `written = false` the
same holds of `PopString`, `PopBool` and `PopInt`. -/
theorem key_not_found_iff_absent (a : Arch) (s : Session) (key : GoString) :
    ((GetString (.bound s) key).1.2 = some .ErrKeyNotFound ↔ mapGet s.values key = none) ∧
    ((GetBool (.bound s) key).1.2 = some .ErrKeyNotFound ↔ mapGet s.values key = none) ∧
    ((GetInt a (.bound s) key).1.2 = some .ErrKeyNotFound ↔ mapGet s.values key = none) ∧
    (s.written = false →
      ((PopString (.bound s) key).1.2 = some .ErrKeyNotFound ↔ mapGet s.values key = none) ∧
      ((PopBool (.bound s) key).1.2 = some .ErrKeyNotFound ↔ mapGet s.values key = none) ∧
      ((PopInt a (.bound s) key).1.2 = some .ErrKeyNotFound ↔ mapGet s.values key = none)) := by
  have hAtoi : ∀ t, (Atoi a t).2 ≠ some .ErrKeyNotFound := by
    intro t hA
    obtain ⟨k, hk⟩ := Atoi_error_is_NumError a t _ hA
    exact Error.noConfusion hk
  refine ⟨?_, ?_, ?_, ?_⟩
  · cases hk : mapGet s.values key with
    | none => simp [GetString, sessionFromContext, hk]
    | some v => cases v <;> simp [GetString, sessionFromContext, hk]
  · cases hk : mapGet s.values key with
    | none => simp [GetBool, sessionFromContext, hk]
    | some v => cases v <;> simp [GetBool, sessionFromContext, hk]
  · cases hk : mapGet s.values key with
    | none => simp [GetInt, sessionFromContext, hk]
    | some v =>
      cases v with
      | Number t => simpa [GetInt, sessionFromContext, hk, Number.String] using hAtoi t
      | _ => simp [GetInt, sessionFromContext, hk]
  · intro hw
    refine ⟨?_, ?_, ?_⟩
    · cases hk : mapGet s.values key with
      | none => simp [PopString, sessionFromContext, hk, hw]
      | some v => cases v <;> simp [PopString, sessionFromContext, hk, hw]
    · cases hk : mapGet s.values key with
      | none => simp [PopBool, sessionFromContext, hk, hw]
      | some v => cases v <;> simp [PopBool, sessionFromContext, hk, hw]
    · cases hk : mapGet s.values key with
      | none => simp [PopInt, sessionFromContext, hk, hw]
      | some v =>
        cases v with
        | Number t =>
          cases hA : Atoi a t with
          | mk i oe =>
            cases oe with
            | none =>
              simp [PopInt, popIntCommit, sessionFromContext, hk, hw, Number.String, hA]
            | some e =>
              have hne := hAtoi t
              rw [hA] at hne
              simpa [PopInt, sessionFromContext, hk, hw, Number.String, hA] using hne
        | _ => simp [PopInt, popIntCommit, sessionFromContext, hk, hw]

/-- Witness of C14 on the sample session: `"nope"` is absent and every Get and
Pop reports `ErrKeyNotFound`; `"name"` is present and `PopBool` reports another
error. -/
theorem key_not_found_iff_absent_witness :
    seeded.written = false ∧ mapGet seeded.values (ascii "nope") = none ∧
    (GetInt .bits64 (.bound seeded) (ascii "nope")).1.2 = some .ErrKeyNotFound ∧
    (PopString (.bound seeded) (ascii "nope")).1.2 = some .ErrKeyNotFound ∧
    (PopBool (.bound seeded) (ascii "nope")).1.2 = some .ErrKeyNotFound ∧
    (PopInt .bits64 (.bound seeded) (ascii "nope")).1.2 = some .ErrKeyNotFound ∧
    ¬ (PopBool (.bound seeded) (ascii "name")).1.2 = some .ErrKeyNotFound :=
  ⟨rfl, rfl,
    (key_not_found_iff_absent .bits64 seeded (ascii "nope")).2.2.1.2 rfl,
    ((key_not_found_iff_absent .bits64 seeded (ascii "nope")).2.2.2 rfl).1.2 rfl,
    ((key_not_found_iff_absent .bits64 seeded (ascii "nope")).2.2.2 rfl).2.1.2 rfl,
    ((key_not_found_iff_absent .bits64 seeded (ascii "nope")).2.2.2 rfl).2.2.2 rfl,
    fun h => absurd (((key_not_found_iff_absent .bits64 seeded (ascii "name")).2.2.2 rfl).2.1.1 h)
      (by decide)⟩

/-! ## Session resolution -/

/-- C16 (session resolution failure is propagated): if `sessionFromContext`
returns the error `e` for the request, each of the eleven operations returns
exactly `e`, with the zero value of its result type for the Get and Pop
operations, and hands the request back as it was; no session is read or
changed, the result being the same for every key and value. -/
theorem resolution_failure_propagated (a : Arch) (r : Request) (e : Error)
    (key : GoString) (sv : GoString) (bv : Bool) (iv : Int)
    (h : sessionFromContext r = .error e) :
    GetString r key = (([], some e), r) ∧
    PutString r key sv = (some e, r) ∧
    PopString r key = (([], some e), r) ∧
    GetBool r key = ((false, some e), r) ∧
    PutBool r key bv = (some e, r) ∧
    PopBool r key = ((false, some e), r) ∧
    GetInt a r key = ((0, some e), r) ∧
    PutInt r key iv = (some e, r) ∧
    PopInt a r key = ((0, some e), r) ∧
    Remove r key = (some e, r) ∧
    Clear r = (some e, r) := by
  simp [GetString, PutString, PopString, GetBool, PutBool, PopBool, GetInt, PutInt, PopInt,
    Remove, Clear, h]

/-- Witness of C16: a request whose resolution fails with the error tagged
`7`. -/
theorem resolution_failure_propagated_witness :
    sessionFromContext (.unbound (.resolution 7)) = .error (.resolution 7) ∧
    GetString (.unbound (.resolution 7)) (ascii "name")
      = (([], some (.resolution 7)), .unbound (.resolution 7)) ∧
    PopInt .bits64 (.unbound (.resolution 7)) (ascii "name")
      = ((0, some (.resolution 7)), .unbound (.resolution 7)) ∧
    Clear (.unbound (.resolution 7)) = (some (.resolution 7), .unbound (.resolution 7)) :=
  ⟨rfl,
    (resolution_failure_propagated .bits64 (.unbound (.resolution 7)) (.resolution 7)
      (ascii "name") (ascii "x") true 1 rfl).1,
    (resolution_failure_propagated .bits64 (.unbound (.resolution 7)) (.resolution 7)
      (ascii "name") (ascii "x") true 1 rfl).2.2.2.2.2.2.2.2.1,
    (resolution_failure_propagated .bits64 (.unbound (.resolution 7)) (.resolution 7)
      (ascii "name") (ascii "x") true 1 rfl).2.2.2.2.2.2.2.2.2.2⟩

/-! ## More on Pop and on the frame of a mutation -/

/-- C18 (PopInt is atomic on a parse failure): on a session with
`written = false` in which the key holds a `json.Number` that `Atoi` rejects
with the error `e`, `PopInt` returns `(0, e)` and hands back the session as it
was: the key still holds the same `json.Number`, every other entry and
`modified` are unchanged. -/
theorem pop_int_atomic_on_parse_failure (a : Arch) (s : Session) (key : GoString)
    (t : GoString) (e : Error) (hw : s.written = false)
    (hk : mapGet s.values key = some (.Number t)) (hA : (Atoi a t).2 = some e) :
    PopInt a (.bound s) key = ((0, some e), .bound s) ∧
    (∃ s1, (PopInt a (.bound s) key).2 = .bound s1 ∧
      mapGet s1.values key = some (.Number t) ∧ s1.values = s.values ∧
      s1.modified = s.modified) := by
  have hP : PopInt a (.bound s) key = ((0, some e), .bound s) := by
    cases hres : Atoi a t with
    | mk i oe =>
      rw [hres] at hA
      simp only at hA
      subst hA
      simp [PopInt, sessionFromContext, hw, hk, Number.String, hres]
  exact ⟨hP, s, by rw [hP], hk, rfl, rfl⟩

/-- Witness of C18: the text `"abc"` under `"n"`. -/
theorem pop_int_atomic_on_parse_failure_witness :
    PopInt .bits64 (.bound (holding (.Number (ascii "abc")))) (ascii "n")
      = ((0, some (.NumError (syntaxError fnAtoi (ascii "abc")))),
        .bound (holding (.Number (ascii "abc")))) :=
  (pop_int_atomic_on_parse_failure .bits64 (holding (.Number (ascii "abc"))) (ascii "n")
    (ascii "abc") (.NumError (syntaxError fnAtoi (ascii "abc"))) rfl rfl (by decide)).1

/-- C19 (mutations touch only their key): on a session with `written = false`,
for two distinct keys `key` and `other`, after `PutString`, `PutBool`, `PutInt`,
`PopString`, `PopBool`, `PopInt` or `Remove` on `key`, successful or not, the
request still carries a session, in which `other` is present exactly when it
was and holds the same value; so `GetString`, `GetBool` and `GetInt` on `other`
return what they returned before. -/
theorem mutations_touch_only_their_key (a : Arch) (s : Session) (key other : GoString)
    (sv : GoString) (bv : Bool) (iv : Int) (hw : s.written = false) (hne : other ≠ key) :
    ∀ r1 ∈ [(PutString (.bound s) key sv).2, (PutBool (.bound s) key bv).2,
        (PutInt (.bound s) key iv).2, (PopString (.bound s) key).2,
        (PopBool (.bound s) key).2, (PopInt a (.bound s) key).2, (Remove (.bound s) key).2],
      (∃ s1, r1 = .bound s1 ∧ mapGet s1.values other = mapGet s.values other) ∧
      (GetString r1 other).1 = (GetString (.bound s) other).1 ∧
      (GetBool r1 other).1 = (GetBool (.bound s) other).1 ∧
      (GetInt a r1 other).1 = (GetInt a (.bound s) other).1 := by
  have hgets : ∀ s1 : Session, mapGet s1.values other = mapGet s.values other →
      (∃ s2, Request.bound s1 = .bound s2 ∧ mapGet s2.values other = mapGet s.values other) ∧
      (GetString (.bound s1) other).1 = (GetString (.bound s) other).1 ∧
      (GetBool (.bound s1) other).1 = (GetBool (.bound s) other).1 ∧
      (GetInt a (.bound s1) other).1 = (GetInt a (.bound s) other).1 := by
    intro s1 h1
    exact ⟨⟨s1, rfl, h1⟩, reads_frame a s1 s other h1⟩
  have hset : ∀ v, mapGet (mapSet s.values key v) other = mapGet s.values other :=
    fun v => mapGet_mapSet_of_ne s.values key other v hne
  have hdel : mapGet (mapDelete s.values key) other = mapGet s.values other :=
    mapGet_mapDelete_of_ne s.values key other hne
  have hpop : ∀ s1 : Session,
      (s1 = s ∨ (s1.values = mapDelete s.values key ∧ s1.modified = true)) →
      mapGet s1.values other = mapGet s.values other := by
    intro s1 h1
    rcases h1 with rfl | ⟨hv, -⟩
    · rfl
    · rw [hv]
      exact hdel
  intro r1 hr1
  simp only [List.mem_cons, List.mem_singleton, List.not_mem_nil, or_false] at hr1
  rcases hr1 with rfl | rfl | rfl | rfl | rfl | rfl | rfl
  · simp only [PutString, sessionFromContext, hw]
    exact hgets _ (hset _)
  · simp only [PutBool, sessionFromContext, hw]
    exact hgets _ (hset _)
  · simp only [PutInt, sessionFromContext, hw]
    exact hgets _ (hset _)
  · obtain ⟨s1, h1, -, h2⟩ := popString_state s key
    rw [h1]
    exact hgets _ (hpop _ h2)
  · obtain ⟨s1, h1, -, h2⟩ := popBool_state s key
    rw [h1]
    exact hgets _ (hpop _ h2)
  · obtain ⟨s1, h1, -, h2⟩ := popInt_state a s key
    rw [h1]
    exact hgets _ (hpop _ h2)
  · simp only [Remove, sessionFromContext, hw]
    exact hgets _ hdel

/-- Witness of C19 on the sample session: popping the `json.Number` under
`"count"` and putting a bool under `"count"` leave `"name"` as it was. -/
theorem mutations_touch_only_their_key_witness :
    seeded.written = false ∧ ascii "name" ≠ ascii "count" ∧
    ((∃ s1, (PopInt .bits64 (.bound seeded) (ascii "count")).2 = .bound s1 ∧
        mapGet s1.values (ascii "name") = mapGet seeded.values (ascii "name")) ∧
      (GetString (PopInt .bits64 (.bound seeded) (ascii "count")).2 (ascii "name")).1
        = (GetString (.bound seeded) (ascii "name")).1 ∧
      (GetBool (PopInt .bits64 (.bound seeded) (ascii "count")).2 (ascii "name")).1
        = (GetBool (.bound seeded) (ascii "name")).1 ∧
      (GetInt .bits64 (PopInt .bits64 (.bound seeded) (ascii "count")).2 (ascii "name")).1
        = (GetInt .bits64 (.bound seeded) (ascii "name")).1) ∧
    (GetString (PutBool (.bound seeded) (ascii "count") true).2 (ascii "name")).1
      = (GetString (.bound seeded) (ascii "name")).1 :=
  ⟨rfl, by decide,
    mutations_touch_only_their_key .bits64 seeded (ascii "count") (ascii "name") (ascii "x")
      true 1 rfl (by decide) _ (by simp),
    (mutations_touch_only_their_key .bits64 seeded (ascii "count") (ascii "name") (ascii "x")
      true 1 rfl (by decide) (PutBool (.bound seeded) (ascii "count") true).2 (by simp)).2.1⟩

/-! ## The flags along a run -/

/-- C13 (flag invariants): along every sequence of the eleven operations
applied to any initial session, the request keeps carrying a session, the
`written` flag after the sequence is the one at the start, and so is it after
one more operation: no operation changes `written`; and `modified` is
monotonic: if it is true before an operation (or at the start) it is true
after it (or at the end). -/
theorem flag_invariants (a : Arch) (ops : List Op) (op : Op) (s : Session) :
    ∃ s1 s2, run a ops (.bound s) = .bound s1 ∧ run a (ops ++ [op]) (.bound s) = .bound s2 ∧
      s1.written = s.written ∧ (s.modified = true → s1.modified = true) ∧
      s2.written = s1.written ∧ (s1.modified = true → s2.modified = true) := by
  obtain ⟨s1, h1, hw1, hm1⟩ := run_flags a ops s
  obtain ⟨s2, h2, hw2, hm2⟩ := after_flags a op s1
  refine ⟨s1, s2, h1, ?_, hw1, hm1, hw2, ?_⟩
  · simp only [run, List.foldl_append, List.foldl_cons, List.foldl_nil] at h1 ⊢
    rw [h1]
    exact h2
  · intro hm
    rcases hm2 with rfl | h
    · exact hm
    · exact h

/-- Witness of C13 on the sample session: after `PutString("k", "v")` the flag
`modified` is true, and it stays true through the `Clear` that follows, while
`written` stays false. -/
theorem flag_invariants_witness :
    ∃ s1 s2,
      run .bits64 [.putString (ascii "k") (ascii "v")] (.bound seeded) = .bound s1 ∧
      run .bits64 [.putString (ascii "k") (ascii "v"), .clear] (.bound seeded) = .bound s2 ∧
      s1.written = false ∧ s1.modified = true ∧ s2.written = false ∧ s2.modified = true := by
  obtain ⟨s1, s2, h1, h2, hw1, -, hw2, hm2⟩ :=
    flag_invariants .bits64 [.putString (ascii "k") (ascii "v")] .clear seeded
  have hs1 : s1.modified = true := by
    have hrun : run .bits64 [.putString (ascii "k") (ascii "v")] (.bound seeded)
        = .bound { values := mapSet seeded.values (ascii "k") (.string (ascii "v")),
                   written := false, modified := true } := rfl
    rw [hrun] at h1
    cases h1
    rfl
  exact ⟨s1, s2, h1, h2, hw1, hs1, hw2.trans hw1, hm2 hs1⟩

/-! ## Where the code departs from the specification -/

/-- Every call that takes the lock in shared mode leaves the session as it
was, except `PopInt`. -/
theorem shared_lock_calls (a : Arch) (op : Op) (h : lockMode op = .shared) :
    (∀ s, op.after a (.bound s) = .bound s) ∨ ∃ key, op = .popInt key := by
  cases op with
  | getString key => exact Or.inl (fun s => getString_state s key)
  | getBool key => exact Or.inl (fun s => getBool_state s key)
  | getInt key => exact Or.inl (fun s => getInt_state a s key)
  | popInt key => exact Or.inr ⟨key, rfl⟩
  | putString key val => exact LockMode.noConfusion h
  | putBool key val => exact LockMode.noConfusion h
  | putInt key val => exact LockMode.noConfusion h
  | popString key => exact LockMode.noConfusion h
  | popBool key => exact LockMode.noConfusion h
  | remove key => exact LockMode.noConfusion h
  | clear => exact LockMode.noConfusion h

/-- C15 at `PopInt`: the call takes the lock in shared mode (`RLock`, line
194), and on the sample session `PopInt("count")` deletes the key from the
values map and sets `modified` while holding it; `PopString` and `PopBool`
take the lock in exclusive mode. -/
theorem pop_int_mutates_under_shared_lock :
    lockMode (.popInt (ascii "count")) = .shared ∧
    (PopInt .bits64 (.bound seeded) (ascii "count")).2
      = .bound { values := [(ascii "name", .string (ascii "alice"))], written := false,
                 modified := true } ∧
    (PopInt .bits64 (.bound seeded) (ascii "count")).2 ≠ .bound seeded ∧
    lockMode (.popString (ascii "count")) = .exclusive ∧
    lockMode (.popBool (ascii "count")) = .exclusive := by
  decide

/-- On an open session `PopString` and `PopBool` return what `GetString` and
`GetBool` return, `PopInt` returns the error of `GetInt`, and when that error is
nil also its value. -/
theorem pop_get_agreement (a : Arch) (s : Session) (key : GoString) (hw : s.written = false) :
    (PopString (.bound s) key).1 = (GetString (.bound s) key).1 ∧
    (PopBool (.bound s) key).1 = (GetBool (.bound s) key).1 ∧
    (PopInt a (.bound s) key).1.2 = (GetInt a (.bound s) key).1.2 ∧
    ((GetInt a (.bound s) key).1.2 = none →
      (PopInt a (.bound s) key).1 = (GetInt a (.bound s) key).1) := by
  cases hk : mapGet s.values key with
  | none => simp [PopString, PopBool, PopInt, GetString, GetBool, GetInt, sessionFromContext, hw, hk]
  | some v =>
    cases v with
    | Number t =>
      cases hA : Atoi a t with
      | mk i oe =>
        cases oe <;>
          simp [PopString, PopBool, PopInt, popIntCommit, GetString, GetBool, GetInt,
            sessionFromContext, hw, hk, Number.String, hA]
    | _ =>
      simp [PopString, PopBool, PopInt, popIntCommit, GetString, GetBool, GetInt,
        sessionFromContext, hw, hk]

/-- C17 at a `json.Number` out of the range of `int`: on the open session that
holds the text `"9223372036854775808"` under `"n"`, `GetInt` returns the largest
`int` with the range error of `Atoi`, `PopInt` returns `0` with the same error,
so the two results differ. -/
theorem pop_int_differs_from_get_int_on_range_error :
    (holding (.Number (ascii "9223372036854775808"))).written = false ∧
    (GetInt .bits64 (.bound (holding (.Number (ascii "9223372036854775808")))) (ascii "n")).1
      = (9223372036854775807,
          some (.NumError (rangeError fnAtoi (ascii "9223372036854775808")))) ∧
    (PopInt .bits64 (.bound (holding (.Number (ascii "9223372036854775808")))) (ascii "n")).1
      = (0, some (.NumError (rangeError fnAtoi (ascii "9223372036854775808")))) ∧
    (PopInt .bits64 (.bound (holding (.Number (ascii "9223372036854775808")))) (ascii "n")).1
      ≠ (GetInt .bits64 (.bound (holding (.Number (ascii "9223372036854775808"))))
          (ascii "n")).1 := by
  decide

/-- With a non-nil error `GetString`, `GetBool`, `PopString`, `PopBool` and
`PopInt` return the zero value; `GetInt` returns `0`, or the largest or the
smallest `int` when the error is the range error of `Atoi`. -/
theorem value_on_error (a : Arch) (s : Session) (key : GoString) :
    ((GetString (.bound s) key).1.2 ≠ none → (GetString (.bound s) key).1.1 = []) ∧
    ((GetBool (.bound s) key).1.2 ≠ none → (GetBool (.bound s) key).1.1 = false) ∧
    ((PopString (.bound s) key).1.2 ≠ none → (PopString (.bound s) key).1.1 = []) ∧
    ((PopBool (.bound s) key).1.2 ≠ none → (PopBool (.bound s) key).1.1 = false) ∧
    ((PopInt a (.bound s) key).1.2 ≠ none → (PopInt a (.bound s) key).1.1 = 0) ∧
    ((GetInt a (.bound s) key).1.2 ≠ none →
      (GetInt a (.bound s) key).1.1 = 0 ∨
      (∃ t, mapGet s.values key = some (.Number t) ∧
        (GetInt a (.bound s) key).1.2 = some (.NumError (rangeError fnAtoi t)) ∧
        ((GetInt a (.bound s) key).1.1 = a.maxInt ∨
          (GetInt a (.bound s) key).1.1 = a.minInt))) := by
  refine ⟨?_, ?_, ?_, ?_, ?_, ?_⟩
  · cases hk : mapGet s.values key with
    | none => simp [GetString, sessionFromContext, hk]
    | some v => cases v <;> simp [GetString, sessionFromContext, hk]
  · cases hk : mapGet s.values key with
    | none => simp [GetBool, sessionFromContext, hk]
    | some v => cases v <;> simp [GetBool, sessionFromContext, hk]
  · cases hw : s.written <;> cases hk : mapGet s.values key with
    | none => simp [PopString, sessionFromContext, hk, hw]
    | some v => cases v <;> simp [PopString, sessionFromContext, hk, hw]
  · cases hw : s.written <;> cases hk : mapGet s.values key with
    | none => simp [PopBool, sessionFromContext, hk, hw]
    | some v => cases v <;> simp [PopBool, sessionFromContext, hk, hw]
  · cases hw : s.written <;> cases hk : mapGet s.values key with
    | none => simp [PopInt, sessionFromContext, hk, hw]
    | some v =>
      cases v with
      | Number t =>
        cases hA : Atoi a t with
        | mk i oe =>
          cases oe <;>
            simp [PopInt, popIntCommit, sessionFromContext, hk, hw, Number.String, hA]
      | _ => simp [PopInt, popIntCommit, sessionFromContext, hk, hw]
  · cases hk : mapGet s.values key with
    | none => simp [GetInt, sessionFromContext, hk]
    | some v =>
      cases v with
      | Number t =>
        intro herr
        have hG : (GetInt a (.bound s) key).1 = Atoi a t := by
          simp [GetInt, sessionFromContext, hk, Number.String]
        rw [hG] at herr ⊢
        by_cases hd : ∃ n, decimalValue t = some n ∧ a.minInt ≤ n ∧ n ≤ a.maxInt
        · obtain ⟨n, hn, hlo, hhi⟩ := hd
          rw [Atoi_of_decimal a t n hn hlo hhi] at herr
          exact absurd rfl herr
        · have hnot : ∀ n, decimalValue t = some n → ¬ (a.minInt ≤ n ∧ n ≤ a.maxInt) :=
            fun n hn hr => hd ⟨n, hn, hr⟩
          rcases Atoi_of_not_decimal a t hnot with hA | hA | hA
          · left
            rw [hA]
          · right
            exact ⟨t, rfl, by rw [hA], Or.inl (by rw [hA])⟩
          · right
            exact ⟨t, rfl, by rw [hA], Or.inr (by rw [hA])⟩
      | _ => simp [GetInt, sessionFromContext, hk]

/-- C20 at a `json.Number` out of the range of `int`: `GetInt` returns a
non-nil error together with a value that is not `0`: the largest `int` for the
text `"9223372036854775808"` and the smallest for `"-9223372036854775809"` on a
64-bit platform, the largest for `"2147483648"` on a 32-bit one. -/
theorem get_int_value_on_range_error :
    (GetInt .bits64 (.bound (holding (.Number (ascii "9223372036854775808")))) (ascii "n")).1
      = (9223372036854775807,
          some (.NumError (rangeError fnAtoi (ascii "9223372036854775808")))) ∧
    (GetInt .bits64 (.bound (holding (.Number (ascii "9223372036854775808"))))
      (ascii "n")).1.1 ≠ 0 ∧
    (GetInt .bits64 (.bound (holding (.Number (ascii "-9223372036854775809")))) (ascii "n")).1
      = (-9223372036854775808,
          some (.NumError (rangeError fnAtoi (ascii "-9223372036854775809")))) ∧
    (GetInt .bits32 (.bound (holding (.Number (ascii "2147483648")))) (ascii "n")).1
      = (2147483647, some (.NumError (rangeError fnAtoi (ascii "2147483648")))) := by
  decide

end Scs
